import Mathlib

/-! Gateway configuration schema (`config/api_config.go`).

A shallow embedding of the configuration types declared in
`config/api_config.go`: the string-typed tags `HTTPVerb` and `RequestType`
with their constants, the configuration structs, and the struct tags that
bind every field to its JSON and YAML key.

`time.Duration` (an `int64`) is an integer (no definition computes with it,
so the 64-bit range plays no part), a Go `map[string]string` is a list of
key/value pairs (no definition reads it), and an embedded field is a field
named after its type. The field `Type` is written `Type_`. A Go slice is a list where only
its elements matter. Where the zero value of a struct is compared against
(`DubboBackendConfig`), the nil slice is kept apart from the empty one, and
where slices may share a backing array (`Resources []Resource`), the values
are also given as slice headers over a heap (`GoResource`).

The source is a pure schema. The validation of a configuration, the Route
Index (`Compile`, `Match`) and the Parameter Resolver are described by the
specification only; their definitions below are marked
`Modelled from the spec:` and follow its sections 3, 4.1, 4.2 and 7.
-/

namespace config

/-! ## String-typed tags -/

/-- HTTPVerb defines the restful api http verb (`type HTTPVerb string`). -/
abbrev HTTPVerb := String

/-- MethodAny any method. -/
def MethodAny : HTTPVerb := "ANY"
/-- MethodGet get. -/
def MethodGet : HTTPVerb := "GET"
/-- MethodHead head. -/
def MethodHead : HTTPVerb := "HEAD"
/-- MethodPost post. -/
def MethodPost : HTTPVerb := "POST"
/-- MethodPut put. -/
def MethodPut : HTTPVerb := "PUT"
/-- MethodPatch patch. -/
def MethodPatch : HTTPVerb := "PATCH"
/-- MethodDelete delete. -/
def MethodDelete : HTTPVerb := "DELETE"
/-- MethodOptions options. -/
def MethodOptions : HTTPVerb := "OPTIONS"

/-- The constants of the `HTTPVerb` const block, in declaration order. -/
def httpVerbConstants : List HTTPVerb :=
  [MethodAny, MethodGet, MethodHead, MethodPost, MethodPut, MethodPatch,
   MethodDelete, MethodOptions]

/-- RequestType describes the type of the request (`type RequestType string`). -/
abbrev RequestType := String

/-- DubboRequest represents the dubbo request. -/
def DubboRequest : RequestType := "dubbo"
/-- HTTPRequest represents the http request. -/
def HTTPRequest : RequestType := "http"

/-! ## Configuration structs -/

/-- Definition defines the complex json request body. -/
structure Definition where
  Name : String
  Schema : String
deriving DecidableEq, Repr

/-- HTTPBackendConfig defines the basic http backend config. -/
structure HTTPBackendConfig where
  URL : String
  Host : String
  Path : String
  Schema : String
deriving DecidableEq, Repr

/-- DubboBackendConfig defines the basic dubbo backend config. The two
slices keep the nil slice (`none`) apart from an empty one (`some []`),
because the zero value of this struct is compared against. -/
structure DubboBackendConfig where
  ClusterName : String
  ApplicationName : String
  Protocol : String
  Group : String
  Version : String
  Interface : String
  Method : String
  ParamTypes : Option (List String)
  ToParamTypes : Option (List String)
  Retries : String
deriving DecidableEq, Repr

/-- Opt option, action for compatibility. -/
structure Opt where
  Name : String
  Open : Bool
  Usable : Bool
deriving DecidableEq, Repr

/-- MappingParam defines the mapping rules of headers and queryStrings. -/
structure MappingParam where
  Name : String
  MapTo : String
  Opt : config.Opt
deriving DecidableEq, Repr

/-- IntegrationRequest defines the backend request format and target. The
three embedded fields carry the names of their types. -/
structure IntegrationRequest where
  RequestType : config.RequestType
  DubboBackendConfig : config.DubboBackendConfig
  HTTPBackendConfig : config.HTTPBackendConfig
  MappingParams : List MappingParam
deriving DecidableEq, Repr

/-- BodyDefinition connects the request body to the definitions. -/
structure BodyDefinition where
  DefinitionName : String
deriving DecidableEq, Repr

/-- Params defines the simple parameter definition. -/
structure Params where
  Name : String
  Type_ : String
  Required : Bool
deriving DecidableEq, Repr

/-- InboundRequest defines the details of the inbound. -/
structure InboundRequest where
  RequestType : config.RequestType
  Headers : List Params
  QueryStrings : List Params
  RequestBody : List BodyDefinition
deriving DecidableEq, Repr

/-- Method defines the method of the api. -/
structure Method where
  OnAir : Bool
  Timeout : Int
  Mock : Bool
  Filters : List String
  HTTPVerb : config.HTTPVerb
  InboundRequest : config.InboundRequest
  IntegrationRequest : config.IntegrationRequest
deriving DecidableEq, Repr

/-- Resource defines the API path. `Headers` is the Go map as a list of
key/value pairs. `Resources` nests values of the same type: this inductive
type holds the tree-shaped values, those in which every `Resources` slice
has a backing array of its own, as in a value decoded from a document. A
value whose slices alias one another is a `GoResource` on a `Heap`, defined
further down. -/
inductive Resource where
  | mk (Type_ : String) (Path : String) (Timeout : Int) (Description : String)
      (Filters : List String) (Methods : List Method)
      (Resources : List Resource) (Headers : List (String × String)) : Resource

namespace Resource

/-- Field `Type`. -/
def Type_ : Resource → String
  | mk t _ _ _ _ _ _ _ => t
/-- Field `Path`. -/
def Path : Resource → String
  | mk _ p _ _ _ _ _ _ => p
/-- Field `Timeout`. -/
def Timeout : Resource → Int
  | mk _ _ t _ _ _ _ _ => t
/-- Field `Description`. -/
def Description : Resource → String
  | mk _ _ _ d _ _ _ _ => d
/-- Field `Filters`. -/
def Filters : Resource → List String
  | mk _ _ _ _ f _ _ _ => f
/-- Field `Methods`. -/
def Methods : Resource → List Method
  | mk _ _ _ _ _ m _ _ => m
/-- Field `Resources`. -/
def Resources : Resource → List Resource
  | mk _ _ _ _ _ _ r _ => r
/-- Field `Headers`. -/
def Headers : Resource → List (String × String)
  | mk _ _ _ _ _ _ _ h => h

end Resource

/-- APIConfig defines the data structure of the api gateway configuration.
Its `Resources` are tree-shaped values, what a loader decodes from a
document. -/
structure APIConfig where
  Name : String
  Description : String
  Resources : List Resource
  Definitions : List Definition

/-! ## Zero values -/

/-- The zero value of `HTTPBackendConfig`: every string field is empty. -/
def HTTPBackendConfig.zero : HTTPBackendConfig :=
  { URL := "", Host := "", Path := "", Schema := "" }

/-- The zero value of `DubboBackendConfig`: every string field is empty and
every slice is nil. -/
def DubboBackendConfig.zero : DubboBackendConfig :=
  { ClusterName := "", ApplicationName := "", Protocol := "", Group := "",
    Version := "", Interface := "", Method := "", ParamTypes := none,
    ToParamTypes := none, Retries := "" }

/-! ## Struct tags -/

/-- One struct field with its tag, the tag being the `key:"value"` pairs in
the order they are written in the source. -/
structure StructField where
  Name : String
  Tag : List (String × String)
deriving DecidableEq, Repr

/-- One struct declaration: its name and its fields in declaration order. -/
structure StructDecl where
  Name : String
  Fields : List StructField
deriving DecidableEq, Repr

/-- A field tagged `json:"j" yaml:"y"`, json first. -/
def jy (name j y : String) : StructField :=
  { Name := name, Tag := [("json", j), ("yaml", y)] }

/-- A field tagged `yaml:"y" json:"j"`, yaml first. -/
def yj (name y j : String) : StructField :=
  { Name := name, Tag := [("yaml", y), ("json", j)] }

/-- The twelve configuration structs of `api_config.go` with every field and
its tag as declared. -/
def structDecls : List StructDecl :=
  [ { Name := "APIConfig", Fields :=
        [ jy "Name" "name" "name",
          jy "Description" "description" "description",
          jy "Resources" "resources" "resources",
          jy "Definitions" "definitions" "definitions" ] },
    { Name := "Resource", Fields :=
        [ jy "Type" "type" "type",
          jy "Path" "path" "path",
          jy "Timeout" "timeout" "timeout",
          jy "Description" "description" "description",
          jy "Filters" "filters" "filters",
          jy "Methods" "methods" "methods",
          jy "Resources" "resources,omitempty" "resources,omitempty",
          jy "Headers" "headers,omitempty" "headers,omitempty" ] },
    { Name := "Method", Fields :=
        [ jy "OnAir" "onAir" "onAir",
          jy "Timeout" "timeout" "timeout",
          jy "Mock" "mock" "mock",
          jy "Filters" "filters" "filters",
          jy "HTTPVerb" "httpVerb" "httpVerb",
          jy "InboundRequest" "inboundRequest" "inboundRequest",
          jy "IntegrationRequest" "integrationRequest" "integrationRequest" ] },
    { Name := "InboundRequest", Fields :=
        [ jy "RequestType" "requestType" "requestType",
          jy "Headers" "headers" "headers",
          jy "QueryStrings" "queryStrings" "queryStrings",
          jy "RequestBody" "requestBody" "requestBody" ] },
    { Name := "Params", Fields :=
        [ jy "Name" "name" "name",
          jy "Type" "type" "type",
          jy "Required" "required" "required" ] },
    { Name := "BodyDefinition", Fields :=
        [ jy "DefinitionName" "definitionName" "definitionName" ] },
    { Name := "IntegrationRequest", Fields :=
        [ jy "RequestType" "requestType" "requestType",
          jy "DubboBackendConfig" "dubboBackendConfig,inline,omitempty"
            "dubboBackendConfig,inline,omitempty",
          jy "HTTPBackendConfig" "httpBackendConfig,inline,omitempty"
            "httpBackendConfig,inline,omitempty",
          jy "MappingParams" "mappingParams,omitempty" "mappingParams,omitempty" ] },
    { Name := "MappingParam", Fields :=
        [ jy "Name" "name,omitempty" "name",
          jy "MapTo" "mapTo,omitempty" "mapTo",
          jy "Opt" "opt,omitempty" "opt,omitempty" ] },
    { Name := "Opt", Fields :=
        [ jy "Name" "name,omitempty" "name",
          jy "Open" "open,omitempty" "open",
          jy "Usable" "usable,omitempty" "usable" ] },
    { Name := "DubboBackendConfig", Fields :=
        [ yj "ClusterName" "clusterName" "clusterName",
          yj "ApplicationName" "applicationName" "applicationName",
          { Name := "Protocol",
            Tag := [("yaml", "protocol"), ("json", "protocol,omitempty"),
                    ("default", "dubbo")] },
          yj "Group" "group" "group",
          yj "Version" "version" "version",
          yj "Interface" "interface" "interface",
          yj "Method" "method" "method",
          yj "ParamTypes" "paramTypes" "paramTypes",
          yj "ToParamTypes" "toParamTypes" "toParamTypes",
          yj "Retries" "retries" "retries,omitempty" ] },
    { Name := "HTTPBackendConfig", Fields :=
        [ yj "URL" "url" "url,omitempty",
          yj "Host" "host" "host,omitempty",
          yj "Path" "path" "path,omitempty",
          yj "Schema" "schema" "scheme,omitempty" ] },
    { Name := "Definition", Fields :=
        [ jy "Name" "name" "name",
          jy "Schema" "schema" "schema" ] } ]

/-- The value a tag holds under `key` (Go: `reflect.StructTag.Lookup`). -/
def StructField.lookup (f : StructField) (key : String) : Option String :=
  (f.Tag.find? (fun kv => kv.1 == key)).map Prod.snd

/-- The name part of a tag value: what stands before the first comma, the
rest being options such as `omitempty`. -/
def tagName (value : String) : String :=
  String.mk (value.data.takeWhile (fun c => c != ','))

/-- The key name a field declares for the loader named by `key`. -/
def StructField.keyName (f : StructField) (key : String) : Option String :=
  (f.lookup key).map tagName

/-- Every field of every struct as (struct name, field). -/
def allFields : List (String × StructField) :=
  structDecls.flatMap (fun d => d.Fields.map (fun f => (d.Name, f)))

/-- The fields whose declared JSON key name and YAML key name differ, as
(struct name, field name, json key, yaml key). -/
def keyMismatches : List (String × String × Option String × Option String) :=
  (allFields.filter (fun sf => sf.2.keyName "json" != sf.2.keyName "yaml")).map
    (fun sf => (sf.1, sf.2.Name, sf.2.keyName "json", sf.2.keyName "yaml"))

/-- The field `field` of struct `struct` in the declaration table. -/
def fieldOf (struct field : String) : Option StructField :=
  (structDecls.find? (fun d => d.Name == struct)).bind
    (fun d => d.Fields.find? (fun f => f.Name == field))

/-! ## Invariants of the data model, as stated and as tests -/

/-- The verbs of a Resource are pairwise distinct: entries of `Methods` at
two distinct indices never carry the same `HTTPVerb`. -/
def Resource.VerbsDistinct (r : Resource) : Prop :=
  ∀ i j : Fin r.Methods.length, i ≠ j →
    (r.Methods.get i).HTTPVerb ≠ (r.Methods.get j).HTTPVerb

/-- The number of entries of `Methods` whose verb is `v`. -/
def Resource.verbCount (r : Resource) (v : HTTPVerb) : Nat :=
  (r.Methods.filter (fun m => m.HTTPVerb == v)).length

/-- The definition names of a configuration are pairwise distinct. -/
def APIConfig.NamesDistinct (c : APIConfig) : Prop :=
  ∀ i j : Fin c.Definitions.length, i ≠ j →
    (c.Definitions.get i).Name ≠ (c.Definitions.get j).Name

/-- The backend config that `RequestType` does not select is the zero
value. -/
def IntegrationRequest.ExclusiveByTag (q : IntegrationRequest) : Prop :=
  (q.RequestType = DubboRequest → q.HTTPBackendConfig = HTTPBackendConfig.zero) ∧
  (q.RequestType = HTTPRequest → q.DubboBackendConfig = DubboBackendConfig.zero)

/-- At most one of the two backend configs is populated. -/
def IntegrationRequest.AtMostOneBackend (q : IntegrationRequest) : Prop :=
  q.DubboBackendConfig = DubboBackendConfig.zero ∨
    q.HTTPBackendConfig = HTTPBackendConfig.zero

/-- Whether some value occurs twice in a list: each entry is compared with
the entries after it. -/
def hasDuplicate {α : Type} [DecidableEq α] : List α → Bool
  | [] => false
  | a :: as => as.any (fun b => decide (b = a)) || hasDuplicate as

/-- Modelled from the spec: the duplicate-verb test of `Compile` (§3 "at most
one Method per distinct `HTTPVerb` value", §7 "duplicate verb"); the source
validates nothing. -/
def Resource.hasDuplicateVerb (r : Resource) : Bool :=
  hasDuplicate (r.Methods.map (fun m => m.HTTPVerb))

/-- Modelled from the spec: the duplicate-key test on `Definitions` (§3
"keys unique", "`Name` (unique key)"); the source validates nothing. -/
def APIConfig.hasDuplicateDefinition (c : APIConfig) : Bool :=
  hasDuplicate (c.Definitions.map (fun d => d.Name))

/-- Modelled from the spec: the test that the two backend configs are
"mutually exclusive by tag, the other left at zero-value" (§3): a request
tagged `dubbo` has the zero HTTP backend, a request tagged `http` has the
zero dubbo backend, and under any other tag the two are still not both
populated. The source validates nothing. -/
def IntegrationRequest.violatesExclusivity (q : IntegrationRequest) : Bool :=
  if q.RequestType == DubboRequest then
    q.HTTPBackendConfig != HTTPBackendConfig.zero
  else if q.RequestType == HTTPRequest then
    q.DubboBackendConfig != DubboBackendConfig.zero
  else
    q.DubboBackendConfig != DubboBackendConfig.zero &&
      q.HTTPBackendConfig != HTTPBackendConfig.zero

/-- Modelled from the spec: the duplicate-name test on the inbound
parameters of a method (§3 "`Name` (unique within its sequence)"). -/
def Method.hasDuplicateParam (m : Method) : Bool :=
  hasDuplicate (m.InboundRequest.Headers.map (fun p => p.Name)) ||
    hasDuplicate (m.InboundRequest.QueryStrings.map (fun p => p.Name))

/-! ## The Resource tree -/

mutual
/-- The nesting depth of a Resource through `Resources`: 0 without children,
else one more than the deepest child. -/
def Resource.depth : Resource → Nat
  | Resource.mk _ _ _ _ _ _ rs _ => Resource.depthList rs
/-- The least bound above the depths of a list of children. -/
def Resource.depthList : List Resource → Nat
  | [] => 0
  | r :: rs => max (Resource.depth r + 1) (Resource.depthList rs)
end

mutual
/-- The number of nodes of a Resource tree. -/
def Resource.size : Resource → Nat
  | Resource.mk _ _ _ _ _ _ rs _ => 1 + Resource.sizeList rs
/-- The number of nodes of a forest. -/
def Resource.sizeList : List Resource → Nat
  | [] => 0
  | r :: rs => Resource.size r + Resource.sizeList rs
end

mutual
/-- The recursive traversal of a tree-shaped value: visit a Resource, then
each of its children in declaration order. The source has no traversal; this
is the one the invariant of the Resource tree is stated for. -/
def Resource.walk : Resource → List Resource
  | Resource.mk t p d ds f m rs h => Resource.mk t p d ds f m rs h :: Resource.walkList rs
/-- The traversal of a list of children. -/
def Resource.walkList : List Resource → List Resource
  | [] => []
  | r :: rs => Resource.walk r ++ Resource.walkList rs
end

mutual
/-- The addresses of the nodes in the order the traversal visits them; an
address is the list of child indices leading from the root to the node. -/
def Resource.addresses : Resource → List (List Nat)
  | Resource.mk _ _ _ _ _ _ rs _ => [] :: Resource.addressesList 0 rs
/-- The addresses visited in a list of children whose first has index `i`. -/
def Resource.addressesList : Nat → List Resource → List (List Nat)
  | _, [] => []
  | i, r :: rs =>
      (Resource.addresses r).map (fun a => i :: a) ++ Resource.addressesList (i + 1) rs
end

/-- The node at an address, if the address leads to one. -/
def Resource.nodeAt (r : Resource) : List Nat → Option Resource
  | [] => some r
  | i :: a =>
      match r.Resources[i]? with
      | some c => Resource.nodeAt c a
      | none => none

/-! ## Resource values as Go stores them

`Resources []Resource` is a slice header: it points into a backing array,
and two headers may point into the same array. The inductive `Resource`
above holds the values in which every `Resources` slice has a backing array
of its own, the layout of a value decoded from a document or written as
nested literals. The definitions below hold every value of the Go type,
aliased ones included. -/

/-- The fields of a Resource other than `Resources`. -/
structure ResourceData where
  Type_ : String
  Path : String
  Timeout : Int
  Description : String
  Filters : List String
  Methods : List Method
  Headers : List (String × String)
deriving DecidableEq, Repr

/-- A slice header of type `[]Resource`: nil, or the window of `len`
elements from offset `off` of the backing array at address `array`. -/
inductive SliceHeader where
  | null
  | window (array : Nat) (off : Nat) (len : Nat)
deriving DecidableEq, Repr

/-- A Resource as Go lays it out: the plain fields and the slice header of
`Resources`. -/
structure GoResource where
  Data : ResourceData
  Resources : SliceHeader
deriving DecidableEq, Repr

/-- The heap: the backing arrays of the `[]Resource` slices, by address. -/
abbrev Heap := List (List GoResource)

/-- The elements a slice header ranges over. -/
def Heap.elems (h : Heap) : SliceHeader → List GoResource
  | SliceHeader.null => []
  | SliceHeader.window a off len => ((h[a]?.getD []).drop off).take len

/-- Visit each element of a list with `visit` and join what was visited;
none as soon as one visit does not return. -/
def GoResource.visitAll (visit : GoResource → Option (List GoResource)) :
    List GoResource → Option (List GoResource)
  | [] => some []
  | c :: cs =>
      match visit c, GoResource.visitAll visit cs with
      | some a, some b => some (a ++ b)
      | _, _ => none

/-- The recursive traversal on Go values: visit a Resource, then each element
of its `Resources` slice. `fuel` bounds the recursion depth; none means the
traversal did not return within it. -/
def GoResource.walk : Nat → Heap → GoResource → Option (List GoResource)
  | 0, _, _ => none
  | fuel + 1, h, r =>
      (GoResource.visitAll (GoResource.walk fuel h) (h.elems r.Resources)).map
        (fun visited => r :: visited)

/-- The plain fields of a tree-shaped Resource. -/
def Resource.data : Resource → ResourceData
  | Resource.mk t p d ds f m _ h =>
      { Type_ := t, Path := p, Timeout := d, Description := ds, Filters := f,
        Methods := m, Headers := h }

mutual
/-- The Go value of a tree-shaped Resource, laid out on a heap that already
holds `base` arrays: the children are laid out first, then one new backing
array receives them and the slice header of the Resource windows all of it.
The result is the value and the arrays added. -/
def Resource.alloc (base : Nat) : Resource → GoResource × Heap
  | Resource.mk t p d ds f m rs h =>
      ({ Data := { Type_ := t, Path := p, Timeout := d, Description := ds, Filters := f,
                   Methods := m, Headers := h },
         Resources := SliceHeader.window (base + (Resource.allocList base rs).2.length) 0
                        (Resource.allocList base rs).1.length },
       (Resource.allocList base rs).2 ++ [(Resource.allocList base rs).1])
/-- The Go values of a list of sibling Resources and the arrays added. -/
def Resource.allocList (base : Nat) : List Resource → List GoResource × Heap
  | [] => ([], [])
  | r :: rs =>
      ((Resource.alloc base r).1
          :: (Resource.allocList (base + (Resource.alloc base r).2.length) rs).1,
       (Resource.alloc base r).2
          ++ (Resource.allocList (base + (Resource.alloc base r).2.length) rs).2)
end

/-! ## Error kinds (spec §7) -/

/-- Modelled from the spec: the error kinds of §7; the source declares
none. -/
inductive ErrorKind where
  | RouteNotFound
  | MethodNotAllowed
  | PreconditionFailed
  | MissingParameter
  | TypeMismatch
  | BodyValidationFailed
  | UnresolvedMappingSource
  | UnknownOption
  | ConfigurationError
  | DispatchTimeout
  | DispatchFailed
  | FilterAborted
deriving DecidableEq, Repr

/-! ## Route Index (spec §4.1) -/

/-- Modelled from the spec: a segment of a path template (§4.1): a literal,
a named variable capturing one path element, or a trailing wildcard
capturing the remainder. The route matcher is not in the source. -/
inductive Segment where
  | lit (text : String)
  | var (name : String)
  | wild (name : String)
deriving DecidableEq, Repr

/-- Modelled from the spec: segmenting on `/` (§4.1). Characters are
collected in `acc` (reversed) until the next `/`; empty segments are
dropped, so a leading, trailing or doubled `/` adds no segment. -/
def splitSegments : List Char → List Char → List String
  | [], acc => if acc.isEmpty then [] else [String.mk acc.reverse]
  | c :: cs, acc =>
      if c == '/' then
        if acc.isEmpty then splitSegments cs []
        else String.mk acc.reverse :: splitSegments cs []
      else splitSegments cs (c :: acc)

/-- Modelled from the spec: the segments of a request path or of a path
template (§4.1). -/
def splitPath (path : String) : List String :=
  splitSegments path.data []

/-- Modelled from the spec: the kind of a template segment. A named variable
is written `:name` (§3, `/user/:id`); the spec fixes no spelling for the
trailing wildcard, `*name` is taken here. -/
def classify (s : String) : Segment :=
  match s.data with
  | ':' :: n => Segment.var (String.mk n)
  | '*' :: n => Segment.wild (String.mk n)
  | _ => Segment.lit s

/-- Modelled from the spec: the segments of a path template (§4.1). -/
def parseTemplate (path : String) : List Segment :=
  (splitPath path).map classify

/-- Modelled from the spec: a template is well formed when its wildcard, if
any, is its last segment (§4.1, "trailing wildcard"). -/
def validTemplate : List Segment → Bool
  | [] => true
  | [_] => true
  | Segment.wild _ :: _ :: _ => false
  | _ :: s :: rest => validTemplate (s :: rest)

/-- Modelled from the spec: one fully-qualified path template carrying its
originating Method set (§4.1). -/
structure Route where
  Path : String
  Template : List Segment
  Methods : List Method
deriving DecidableEq, Repr

mutual
/-- Modelled from the spec: flattening a Resource under the effective path
`pfx` of its parent (§3: the effective path is the concatenation of the
ancestors' paths; §4.1: flatten the tree, declaration order kept). -/
def Resource.routes (pfx : String) : Resource → List Route
  | Resource.mk _ p _ _ _ ms rs _ =>
      { Path := pfx ++ p, Template := parseTemplate (pfx ++ p), Methods := ms }
        :: Resource.routesList (pfx ++ p) rs
/-- Modelled from the spec: flattening a list of sibling Resources. -/
def Resource.routesList (pfx : String) : List Resource → List Route
  | [] => []
  | r :: rs => Resource.routes pfx r ++ Resource.routesList pfx rs
end

/-- Modelled from the spec: the segment-trie (§4.1). A node holds the routes
whose template ends at it, its literal children by segment text, its
variable child, and the routes whose template ends in a wildcard at this
level; routes are kept in declaration order. -/
inductive Trie where
  | node (routes : List Route) (literals : List (String × Trie))
      (varChild : Option Trie) (wildcards : List Route) : Trie

/-- Modelled from the spec: the trie without routes (§4.1). -/
def Trie.empty : Trie := Trie.node [] [] none []

/-- Modelled from the spec: insertion below a literal segment (§4.1): `f` is
applied to the literal child under `s`, the child being created if there is
none. -/
def Trie.updateChild (s : String) (f : Trie → Trie) :
    List (String × Trie) → List (String × Trie)
  | [] => [(s, f Trie.empty)]
  | (k, t) :: ls =>
      if k == s then (k, f t) :: ls else (k, t) :: Trie.updateChild s f ls

/-- Modelled from the spec: adding a route along the segments of its
template (§4.1). A route added later stands after the earlier ones of the
same node. -/
def Trie.insert : List Segment → Route → Trie → Trie
  | [], r, Trie.node rs ls v w => Trie.node (rs ++ [r]) ls v w
  | Segment.lit s :: rest, r, Trie.node rs ls v w =>
      Trie.node rs (Trie.updateChild s (fun t => Trie.insert rest r t) ls) v w
  | Segment.var _ :: rest, r, Trie.node rs ls v w =>
      Trie.node rs ls (some (Trie.insert rest r (v.getD Trie.empty))) w
  | Segment.wild _ :: _, r, Trie.node rs ls v w =>
      Trie.node rs ls v (w ++ [r])

/-- Modelled from the spec: the trie of a list of routes, inserted in
declaration order. -/
def Trie.build (routes : List Route) : Trie :=
  routes.foldl (fun t r => Trie.insert r.Template r t) Trie.empty

/-- Modelled from the spec: the remainder a wildcard captures (§4.1), the
path elements joined again with `/`. -/
def joinSegments : List String → String
  | [] => ""
  | [s] => s
  | s :: t :: rest => s ++ "/" ++ joinSegments (t :: rest)

/-- Modelled from the spec: the lookup (§4.1). At each level the literal
child for the path element is taken if there is one, else the variable child
(capturing the element), else the first wildcard route (capturing the
remainder); where the path ends, the first route of the node. `caps` are the
values captured so far. -/
def Trie.lookup : List String → Trie → List String → Option (Route × List String)
  | [], Trie.node rs _ _ _, caps => rs.head?.map (fun r => (r, caps))
  | s :: rest, Trie.node _ ls v w, caps =>
      match ls.lookup s with
      | some c => Trie.lookup rest c caps
      | none =>
          match v with
          | some c => Trie.lookup rest c (caps ++ [s])
          | none => w.head?.map (fun r => (r, caps ++ [joinSegments (s :: rest)]))

/-- The routes found by following literal children only: the routes of the
node reached along the literal children named by the path elements, none if
a literal child is missing on the way. It is what `Trie.lookup` returns from
whenever it is not empty. -/
def Trie.literalRoutes : List String → Trie → List Route
  | [], Trie.node rs _ _ _ => rs
  | s :: rest, Trie.node _ ls _ _ =>
      match ls.lookup s with
      | some c => Trie.literalRoutes rest c
      | none => []

/-- The routes whose template ends at a node. -/
def Trie.ends : Trie → List Route
  | Trie.node rs _ _ _ => rs

/-- The literal children of a node. -/
def Trie.literals : Trie → List (String × Trie)
  | Trie.node _ ls _ _ => ls

/-- The variable child of a node. -/
def Trie.variable? : Trie → Option Trie
  | Trie.node _ _ v _ => v

/-- The wildcard routes of a node. -/
def Trie.wildcards : Trie → List Route
  | Trie.node _ _ _ w => w

/-- A route under consideration together with what is left of its template
below the current level. -/
abbrev Candidate := List Segment × Route

/-- The candidates of a list of routes at the root: each route with its whole
template, in declaration order. -/
def candidates (routes : List Route) : List Candidate :=
  routes.map (fun r => (r.Template, r))

/-- What is left of a candidate below a literal segment equal to the path
element `s`; none if its next segment is not that literal. -/
def Candidate.literalTail (s : String) : Candidate → Option Candidate
  | (Segment.lit x :: tl, r) => if x = s then some (tl, r) else none
  | _ => none

/-- What is left of a candidate below a variable segment; none if its next
segment is not a variable. -/
def Candidate.variableTail : Candidate → Option Candidate
  | (Segment.var _ :: tl, r) => some (tl, r)
  | _ => none

/-- The route of a candidate whose next segment is a wildcard. -/
def Candidate.wildcardRoute : Candidate → Option Route
  | (Segment.wild _ :: _, r) => some r
  | _ => none

/-- The route of a candidate whose template is used up. -/
def Candidate.endRoute : Candidate → Option Route
  | ([], r) => some r
  | _ => none

/-- Modelled from the spec: the priority rule of §4.1 stated on the routes
themselves, without a trie. Level by level, the candidates whose next segment
is the literal path element are kept if there is one ("literal segments take
priority over variable segments"), else the candidates whose next segment is
a variable (capturing the element), else the first candidate whose next
segment is a wildcard wins (capturing the remainder); where the path ends,
the first candidate whose template is used up wins (ties "are resolved by
declaration order (first wins)"). -/
def priorityLookup : List String → List Candidate → List String →
    Option (Route × List String)
  | [], cs, caps => (cs.filterMap Candidate.endRoute).head?.map (fun r => (r, caps))
  | s :: rest, cs, caps =>
      match cs.filterMap (Candidate.literalTail s) with
      | l :: ls => priorityLookup rest (l :: ls) caps
      | [] =>
          match cs.filterMap Candidate.variableTail with
          | v :: vs => priorityLookup rest (v :: vs) (caps ++ [s])
          | [] =>
              (cs.filterMap Candidate.wildcardRoute).head?.map
                (fun r => (r, caps ++ [joinSegments (s :: rest)]))

/-- Whether a template matches a path: a literal matches the equal element,
a variable any one element, a wildcard any remainder that is not empty. -/
def templateMatches : List Segment → List String → Bool
  | [], [] => true
  | Segment.lit x :: tl, s :: rest => x == s && templateMatches tl rest
  | Segment.var _ :: tl, _ :: rest => templateMatches tl rest
  | Segment.wild _ :: _, _ :: _ => true
  | _, _ => false

/-- Whether the first template is at least as specific as the second: at the
first level where their segments differ in kind, the first has the literal
against a variable or wildcard, or the variable against a wildcard. -/
def outranks : List Segment → List Segment → Bool
  | [], [] => true
  | Segment.lit _ :: a, Segment.lit _ :: b => outranks a b
  | Segment.lit _ :: _, Segment.var _ :: _ => true
  | Segment.lit _ :: _, Segment.wild _ :: _ => true
  | Segment.var _ :: a, Segment.var _ :: b => outranks a b
  | Segment.var _ :: _, Segment.wild _ :: _ => true
  | Segment.wild _ :: _, Segment.wild _ :: _ => true
  | _, _ => false

/-- The trie after the candidates are inserted in order, each along what is
left of its template. -/
def Trie.insertAll (cs : List Candidate) (t : Trie) : Trie :=
  cs.foldl (fun t c => Trie.insert c.1 c.2 t) t

/-- Modelled from the spec: the name a template segment captures under, if
it captures (§4.1). -/
def Segment.captureName : Segment → Option String
  | Segment.lit _ => none
  | Segment.var n => some n
  | Segment.wild n => some n

/-- Modelled from the spec: the result of a match (§2): resource path,
method and captured path variables. -/
structure MatchedMethod where
  Path : String
  Method : config.Method
  PathVariables : List (String × String)
deriving DecidableEq, Repr

/-- Modelled from the spec: the compiled lookup structure (§4.1). -/
structure RouteIndex where
  Trie : config.Trie

/-- Modelled from the spec: resolving a definition name to its `Definition`
(§3, "must resolve to a key in `APIConfig.Definitions`"): the first entry
with that name. -/
def APIConfig.findDefinition (c : APIConfig) (name : String) : Option Definition :=
  c.Definitions.find? (fun d => d.Name == name)

/-- Modelled from the spec: whether a body definition of some method names
no entry of `Definitions` (§3, §7 "dangling `Definition` reference"). -/
def APIConfig.hasDanglingDefinition (c : APIConfig) : Bool :=
  (Resource.walkList c.Resources).any (fun r =>
    r.Methods.any (fun m =>
      m.InboundRequest.RequestBody.any (fun b =>
        (c.findDefinition b.DefinitionName).isNone)))

/-- Modelled from the spec: the index of a configuration (§4.1): the trie of
the routes of its flattened Resource tree. -/
def RouteIndex.ofConfig (c : APIConfig) : RouteIndex :=
  { Trie := Trie.build (Resource.routesList "" c.Resources) }

/-- Modelled from the spec: `Compile` (§4.1, §7). A violation of a
structural invariant of the data model (§3) fails with `ConfigurationError`:
a repeated definition name, a repeated verb in a Resource, a repeated
inbound parameter name, backend configs that are not exclusive by tag, a
dangling definition reference, a template with a wildcard before its end.
Otherwise the routes of the flattened tree are put into the trie. The check
that `MapTo` names a field of the backend protocol needs the protocol
schemas, which the spec leaves out. -/
def Compile (c : APIConfig) : Except ErrorKind RouteIndex :=
  if c.hasDuplicateDefinition then
    Except.error ErrorKind.ConfigurationError
  else if (Resource.walkList c.Resources).any (fun r => r.hasDuplicateVerb) then
    Except.error ErrorKind.ConfigurationError
  else if (Resource.walkList c.Resources).any (fun r =>
      r.Methods.any (fun m => m.hasDuplicateParam)) then
    Except.error ErrorKind.ConfigurationError
  else if (Resource.walkList c.Resources).any (fun r =>
      r.Methods.any (fun m => m.IntegrationRequest.violatesExclusivity)) then
    Except.error ErrorKind.ConfigurationError
  else if c.hasDanglingDefinition then
    Except.error ErrorKind.ConfigurationError
  else if (Resource.routesList "" c.Resources).any (fun r => !validTemplate r.Template) then
    Except.error ErrorKind.ConfigurationError
  else
    Except.ok (RouteIndex.ofConfig c)

/-- Modelled from the spec: verb dispatch within the resolved node (§4.1):
the method with exactly the verb, else the `MethodAny` method, else none. -/
def selectMethod (ms : List Method) (verb : HTTPVerb) : Option Method :=
  match ms.find? (fun m => m.HTTPVerb == verb) with
  | some m => some m
  | none => ms.find? (fun m => m.HTTPVerb == MethodAny)

/-- Modelled from the spec: the route a path resolves to in the trie, with
the captured values (§4.1). -/
def RouteIndex.resolve (idx : RouteIndex) (path : String) : Option (Route × List String) :=
  idx.Trie.lookup (splitPath path) []

/-- Modelled from the spec: the Method that path and verb select (§4.1),
whether it is on air or not. -/
def RouteIndex.selected (idx : RouteIndex) (verb : HTTPVerb) (path : String) :
    Option Method :=
  (idx.resolve path).bind (fun rc => selectMethod rc.1.Methods verb)

/-- Modelled from the spec: `Match` (§4.1, §7). No route for the path is
`RouteNotFound`, a route without a compatible verb is `MethodNotAllowed`, a
selected method that is not on air is `RouteNotFound`. -/
def RouteIndex.Match (idx : RouteIndex) (verb : HTTPVerb) (path : String) :
    Except ErrorKind MatchedMethod :=
  match idx.resolve path with
  | none => Except.error ErrorKind.RouteNotFound
  | some (route, caps) =>
      match selectMethod route.Methods verb with
      | none => Except.error ErrorKind.MethodNotAllowed
      | some m =>
          if m.OnAir then
            Except.ok { Path := route.Path, Method := m,
                        PathVariables := (route.Template.filterMap Segment.captureName).zip caps }
          else Except.error ErrorKind.RouteNotFound

/-- A method with the given verb and `OnAir` flag, a dubbo integration and
everything else at its zero value. -/
def Method.simple (verb : config.HTTPVerb) (onAir : Bool) (target : String) : Method :=
  { OnAir := onAir, Timeout := 0, Mock := false, Filters := [], HTTPVerb := verb,
    InboundRequest := { RequestType := HTTPRequest, Headers := [], QueryStrings := [],
                        RequestBody := [] },
    IntegrationRequest :=
      { RequestType := DubboRequest,
        DubboBackendConfig := { DubboBackendConfig.zero with Method := target },
        HTTPBackendConfig := HTTPBackendConfig.zero,
        MappingParams := [] } }

/-- A Resource with a path and methods, nothing else. -/
def Resource.leaf (path : String) (methods : List Method) : Resource :=
  Resource.mk "restful" path 0 "" [] methods [] []

/-- A configuration holding the given resources. -/
def APIConfig.ofResources (rs : List Resource) : APIConfig :=
  { Name := "api", Description := "", Resources := rs, Definitions := [] }

/-! ## Parameter Resolver, step 4 (spec §4.2) -/

/-- Modelled from the spec: a named option behaviour (§6): a value transform
that returns the transformed value or an error. -/
abbrev OptionBehavior := String → Except ErrorKind String

/-- Modelled from the spec: the registry of option behaviours, looked up by
`Opt.Name` (§4.2, §6). It is an external collaborator, so it is an input. -/
abbrev OptionRegistry := String → Option OptionBehavior

/-- Modelled from the spec: what one mapping rule does (§4.2 step 4). -/
inductive MappingStep where
  | assign (dest : String) (value : String)
  | skip
  | fail (kind : ErrorKind)
deriving DecidableEq, Repr

/-- Modelled from the spec: §4.2 step 4 for one rule; the resolver is not in
the source. `extracted` holds the inbound values of steps 2 and 3 under
their compound keys. The source is resolved first (`UnresolvedMappingSource`
if it was never extracted). With `Opt.Open` false the rule applies
unconditionally; with `Opt.Open` true it applies only if `Opt.Usable` is
true, and then the behaviour named `Opt.Name` transforms the value
(`UnknownOption` if the registry has none). -/
def mappingStep (registry : OptionRegistry) (extracted : List (String × String))
    (m : MappingParam) : MappingStep :=
  match extracted.lookup m.Name with
  | none => MappingStep.fail ErrorKind.UnresolvedMappingSource
  | some v =>
      if m.Opt.Open then
        if m.Opt.Usable then
          match registry m.Opt.Name with
          | none => MappingStep.fail ErrorKind.UnknownOption
          | some behavior =>
              match behavior v with
              | Except.ok w => MappingStep.assign m.MapTo w
              | Except.error e => MappingStep.fail e
        else MappingStep.skip
      else MappingStep.assign m.MapTo v

/-- Modelled from the spec: the resolved backend invocation (§4.2 step 5):
protocol tag, target descriptor and the destination fields set so far, in
the order they were first set. -/
structure IntegrationCall where
  RequestType : config.RequestType
  DubboBackendConfig : config.DubboBackendConfig
  HTTPBackendConfig : config.HTTPBackendConfig
  Fields : List (String × String)
deriving DecidableEq, Repr

/-- Modelled from the spec: setting a destination field (§4.2 step 4): an
entry that exists is overwritten in place, else the entry is appended. -/
def setField (dest value : String) : List (String × String) → List (String × String)
  | [] => [(dest, value)]
  | (k, v) :: fs => if k == dest then (k, value) :: fs else (k, v) :: setField dest value fs

/-- Modelled from the spec: assigning a value into the destination field
referenced by `MapTo` (§4.2 step 4). -/
def IntegrationCall.assign (call : IntegrationCall) (dest value : String) : IntegrationCall :=
  { call with Fields := setField dest value call.Fields }

/-- Modelled from the spec: one rule applied to the call under construction
(§4.2 step 4): a skipped rule leaves the call as it is, a failing rule ends
the resolution with its error. -/
def applyMapping (registry : OptionRegistry) (extracted : List (String × String))
    (call : IntegrationCall) (m : MappingParam) : Except ErrorKind IntegrationCall :=
  match mappingStep registry extracted m with
  | MappingStep.assign dest value => Except.ok (call.assign dest value)
  | MappingStep.skip => Except.ok call
  | MappingStep.fail kind => Except.error kind

/-- The registry that knows no option. -/
def OptionRegistry.none : OptionRegistry := fun _ => Option.none

/-! ## Concrete values -/

/-- A Resource whose two methods both carry the verb `ANY`. -/
def Example.twoAnyResource : Resource :=
  Resource.leaf "/ping"
    [Method.simple MethodAny true "first", Method.simple MethodAny true "second"]

/-- A Resource with one method per verb: `GET` and `ANY`. -/
def Example.getAnyResource : Resource :=
  Resource.leaf "/ping"
    [Method.simple MethodGet true "get", Method.simple MethodAny true "any"]

/-- A configuration with two definitions named `User`. -/
def Example.twoUserDefinitions : APIConfig :=
  { Name := "api", Description := "", Resources := [],
    Definitions := [ { Name := "User", Schema := "object" },
                     { Name := "User", Schema := "string" } ] }

/-- A configuration with two definitions of different names. -/
def Example.userOrderDefinitions : APIConfig :=
  { Name := "api", Description := "", Resources := [],
    Definitions := [ { Name := "User", Schema := "object" },
                     { Name := "Order", Schema := "object" } ] }

/-- An integration request tagged `dubbo` that also carries an HTTP
backend. -/
def Example.dubboWithHTTP : IntegrationRequest :=
  { RequestType := DubboRequest,
    DubboBackendConfig := { DubboBackendConfig.zero with Interface := "UserService" },
    HTTPBackendConfig := { HTTPBackendConfig.zero with URL := "http://backend" },
    MappingParams := [] }

/-- An integration request tagged `dubbo` with only the dubbo backend. -/
def Example.dubboOnly : IntegrationRequest :=
  { RequestType := DubboRequest,
    DubboBackendConfig := { DubboBackendConfig.zero with Interface := "UserService" },
    HTTPBackendConfig := HTTPBackendConfig.zero,
    MappingParams := [] }

/-- The configuration holding only the `GET` and `ANY` Resource. -/
def Example.getAnyConfig : APIConfig :=
  APIConfig.ofResources [Example.getAnyResource]

/-- A method whose integration is tagged `dubbo` with only the dubbo
backend. -/
def Example.dubboOnlyMethod : Method :=
  { Method.simple MethodGet true "getUser" with IntegrationRequest := Example.dubboOnly }

/-- The Resource `/user` with that method. -/
def Example.dubboOnlyResource : Resource :=
  Resource.leaf "/user" [Example.dubboOnlyMethod]

/-- The configuration holding only that Resource. -/
def Example.dubboOnlyConfig : APIConfig :=
  APIConfig.ofResources [Example.dubboOnlyResource]

/-- The Go value `rs[0]` after `rs := make([]Resource, 1)` and
`rs[0].Resources = rs`: its `Resources` slice windows the array it lives
in. -/
def Example.loopResource : GoResource :=
  { Data := { Type_ := "", Path := "/loop", Timeout := 0, Description := "",
              Filters := [], Methods := [], Headers := [] },
    Resources := SliceHeader.window 0 0 1 }

/-- The heap of that value: one backing array holding it. -/
def Example.loopHeap : Heap := [[Example.loopResource]]

/-- A tree with a root, two children and one grandchild. -/
def Example.smallTree : Resource :=
  Resource.mk "restful" "/a" 0 "" [] []
    [Resource.mk "restful" "/b" 0 "" [] [] [Resource.leaf "/c" []] [],
     Resource.leaf "/d" []] []

/-- The configuration whose one method is tagged `dubbo` and carries both
backends. -/
def Example.dubboWithHTTPConfig : APIConfig :=
  APIConfig.ofResources
    [Resource.leaf "/user"
      [{ Method.simple MethodGet true "getUser" with
          IntegrationRequest := Example.dubboWithHTTP }]]

/-- The inbound values of a request that carries the header `token`. -/
def Example.tokenSource : List (String × String) := [("header.token", "abc")]

/-- A rule with `Open` and `Usable` both true whose option name no registry
entry answers to. -/
def Example.openUsableRule : MappingParam :=
  { Name := "header.token", MapTo := "0",
    Opt := { Name := "unregistered", Open := true, Usable := true } }

/-- A rule with `Open` and `Usable` both false. -/
def Example.closedRule : MappingParam :=
  { Name := "header.token", MapTo := "0",
    Opt := { Name := "", Open := false, Usable := false } }

/-- A call under construction whose destination `0` holds a default. -/
def Example.templateCall : IntegrationCall :=
  { RequestType := DubboRequest, DubboBackendConfig := DubboBackendConfig.zero,
    HTTPBackendConfig := HTTPBackendConfig.zero, Fields := [("0", "default")] }

/-- The routes `/a/:x` and `/a/b`, the variable one declared first. -/
def Example.varFirst : APIConfig :=
  APIConfig.ofResources
    [Resource.leaf "/a/:x" [Method.simple MethodGet true "var"],
     Resource.leaf "/a/b" [Method.simple MethodGet true "lit"]]

/-- The routes `/a/b` and `/a/:x`, the literal one declared first. -/
def Example.litFirst : APIConfig :=
  APIConfig.ofResources
    [Resource.leaf "/a/b" [Method.simple MethodGet true "lit"],
     Resource.leaf "/a/:x" [Method.simple MethodGet true "var"]]

/-- The routes `/u/:id/profile` and `/u/:id/:tab`, the literal one declared
first. -/
def Example.profileFirst : APIConfig :=
  APIConfig.ofResources
    [Resource.leaf "/u/:id/profile" [Method.simple MethodGet true "profile"],
     Resource.leaf "/u/:id/:tab" [Method.simple MethodGet true "tab"]]

/-- The routes `/u/:id/:tab` and `/u/:id/profile`, the variable one declared
first. -/
def Example.tabFirst : APIConfig :=
  APIConfig.ofResources
    [Resource.leaf "/u/:id/:tab" [Method.simple MethodGet true "tab"],
     Resource.leaf "/u/:id/profile" [Method.simple MethodGet true "profile"]]

/-- The route `GET /ping` configured with `OnAir` false. -/
def Example.pingOff : APIConfig :=
  APIConfig.ofResources [Resource.leaf "/ping" [Method.simple MethodGet false "ping"]]

end config

/-! # Theorems -/

namespace config

/-! ## The Resource tree -/

theorem Resource.depth_eq (r : Resource) : r.depth = Resource.depthList r.Resources := by
  cases r; simp [Resource.depth, Resource.Resources]

theorem Resource.depth_lt_depthList {c : Resource} :
    ∀ {rs : List Resource}, c ∈ rs → c.depth < Resource.depthList rs
  | [], h => by simp at h
  | r :: rs, h => by
      simp only [Resource.depthList]
      rcases List.mem_cons.mp h with h | h
      · subst h; omega
      · have := Resource.depth_lt_depthList h; omega

theorem Resource.depth_nodeAt_lt :
    ∀ (a : List Nat) (r c : Resource), a ≠ [] → r.nodeAt a = some c → c.depth < r.depth
  | [], _, _, h, _ => absurd rfl h
  | i :: a, r, c, _, h => by
      simp only [Resource.nodeAt] at h
      cases hget : r.Resources[i]? with
      | none => simp [hget] at h
      | some d =>
          simp only [hget] at h
          have hd : d.depth < r.depth := by
            rw [Resource.depth_eq r]
            exact Resource.depth_lt_depthList (List.getElem?_mem hget)
          cases a with
          | nil =>
              simp only [Resource.nodeAt, Option.some.injEq] at h
              subst h; exact hd
          | cons j a =>
              have := Resource.depth_nodeAt_lt (j :: a) d c (by simp) h
              omega

theorem Resource.head_of_mem_addressesList :
    ∀ (rs : List Resource) (i : Nat) (a : List Nat), a ∈ Resource.addressesList i rs →
      ∃ k b, a = k :: b ∧ i ≤ k
  | [], _, _, h => by simp [Resource.addressesList] at h
  | r :: rs, i, a, h => by
      simp only [Resource.addressesList, List.mem_append, List.mem_map] at h
      rcases h with ⟨b, _, rfl⟩ | h
      · exact ⟨i, b, rfl, le_refl _⟩
      · obtain ⟨k, b, rfl, hk⟩ := Resource.head_of_mem_addressesList rs (i + 1) a h
        exact ⟨k, b, rfl, by omega⟩

mutual
theorem Resource.addresses_nodup : ∀ r : Resource, r.addresses.Nodup
  | Resource.mk _ _ _ _ _ _ rs _ => by
      simp only [Resource.addresses, List.nodup_cons]
      refine ⟨?_, Resource.addressesList_nodup 0 rs⟩
      intro h
      obtain ⟨k, b, hk, _⟩ := Resource.head_of_mem_addressesList rs 0 [] h
      simp at hk
theorem Resource.addressesList_nodup :
    ∀ (i : Nat) (rs : List Resource), (Resource.addressesList i rs).Nodup
  | _, [] => by simp [Resource.addressesList]
  | i, r :: rs => by
      simp only [Resource.addressesList]
      refine List.Nodup.append ?_ (Resource.addressesList_nodup (i + 1) rs) ?_
      · exact (Resource.addresses_nodup r).map (fun a b h => by simpa using h)
      · intro a h1 h2
        simp only [List.mem_map] at h1
        obtain ⟨b, _, rfl⟩ := h1
        obtain ⟨k, b2, hk, hle⟩ := Resource.head_of_mem_addressesList rs (i + 1) _ h2
        simp only [List.cons.injEq] at hk
        omega
end

mutual
theorem Resource.mem_addresses :
    ∀ (r : Resource) (a : List Nat), a ∈ r.addresses ↔ (r.nodeAt a).isSome = true
  | Resource.mk _ _ _ _ _ _ rs _, [] => by simp [Resource.addresses, Resource.nodeAt]
  | Resource.mk _ _ _ _ _ _ rs _, j :: b => by
      simp only [Resource.addresses, List.mem_cons, Resource.nodeAt, Resource.Resources]
      rw [Resource.mem_addressesList 0 rs (j :: b)]
      constructor
      · rintro (h | ⟨k, b2, c, h, hk, hc⟩)
        · simp at h
        · simp only [List.cons.injEq, Nat.zero_add] at h
          obtain ⟨rfl, rfl⟩ := h
          simp [hk, hc]
      · intro h
        right
        cases hj : rs[j]? with
        | none => simp [hj] at h
        | some c =>
            simp only [hj] at h
            exact ⟨j, b, c, by simp, hj, h⟩
theorem Resource.mem_addressesList :
    ∀ (i : Nat) (rs : List Resource) (a : List Nat),
      a ∈ Resource.addressesList i rs ↔
        ∃ k b c, a = (i + k) :: b ∧ rs[k]? = some c ∧ (Resource.nodeAt c b).isSome = true
  | _, [], a => by simp [Resource.addressesList]
  | i, r :: rs, a => by
      simp only [Resource.addressesList, List.mem_append, List.mem_map]
      rw [Resource.mem_addressesList (i + 1) rs a]
      constructor
      · rintro (⟨b, hb, rfl⟩ | ⟨k, b, c, rfl, hk, hc⟩)
        · exact ⟨0, b, r, by simp, by simp, (Resource.mem_addresses r b).mp hb⟩
        · exact ⟨k + 1, b, c, by simp; omega, by simpa using hk, hc⟩
      · rintro ⟨k, b, c, rfl, hk, hc⟩
        cases k with
        | zero =>
            left
            simp only [List.getElem?_cons_zero, Option.some.injEq] at hk
            subst hk
            exact ⟨b, (Resource.mem_addresses r b).mpr hc, by simp⟩
        | succ k =>
            right
            exact ⟨k, b, c, by simp; omega, by simpa using hk, hc⟩
end

mutual
theorem Resource.map_nodeAt_addresses :
    ∀ r : Resource, r.addresses.map r.nodeAt = r.walk.map some
  | Resource.mk t p d ds f m rs h => by
      simp only [Resource.addresses, Resource.walk, List.map_cons, Resource.nodeAt]
      have := Resource.map_nodeAt_addressesList rs [] (Resource.mk t p d ds f m rs h)
        (by simp [Resource.Resources])
      simp only [List.length_nil] at this
      rw [this]
theorem Resource.map_nodeAt_addressesList :
    ∀ (rs pre : List Resource) (root : Resource), root.Resources = pre ++ rs →
      (Resource.addressesList pre.length rs).map root.nodeAt = (Resource.walkList rs).map some
  | [], _, _, _ => by simp [Resource.addressesList, Resource.walkList]
  | r :: rs, pre, root, hroot => by
      simp only [Resource.addressesList, Resource.walkList, List.map_append, List.map_map]
      have h1 : (root.nodeAt ∘ fun a => pre.length :: a) = r.nodeAt := by
        funext b
        have hget : (pre ++ r :: rs)[pre.length]? = some r := by
          rw [List.getElem?_append_right (le_refl _)]
          simp
        simp only [Function.comp, Resource.nodeAt, hroot, hget]
      have h2 := Resource.map_nodeAt_addressesList rs (pre ++ [r]) root (by simp [hroot])
      simp only [List.length_append, List.length_singleton] at h2
      rw [h1, h2, Resource.map_nodeAt_addresses r]
end

mutual
theorem Resource.length_walk : ∀ r : Resource, r.walk.length = r.size
  | Resource.mk _ _ _ _ _ _ rs _ => by
      simp only [Resource.walk, Resource.size, List.length_cons, Resource.length_walkList rs]
      omega
theorem Resource.length_walkList :
    ∀ rs : List Resource, (Resource.walkList rs).length = Resource.sizeList rs
  | [] => by simp [Resource.walkList, Resource.sizeList]
  | r :: rs => by
      simp only [Resource.walkList, Resource.sizeList, List.length_append,
        Resource.length_walk r, Resource.length_walkList rs]
end

theorem Resource.walkList_map_data_cons (r : Resource) (rs : List Resource) :
    (Resource.walkList (r :: rs)).map Resource.data
      = r.walk.map Resource.data ++ (Resource.walkList rs).map Resource.data := by
  simp [Resource.walkList]

theorem Heap.elems_alloc_window (pre post added : Heap) (ns : List GoResource) :
    Heap.elems (pre ++ (added ++ [ns]) ++ post)
        (SliceHeader.window (pre.length + added.length) 0 ns.length) = ns := by
  have hget : (pre ++ (added ++ [ns]) ++ post)[pre.length + added.length]? = some ns := by
    have h1 : pre ++ (added ++ [ns]) ++ post = (pre ++ added) ++ (ns :: post) := by simp
    rw [h1, List.getElem?_append_right (by simp)]
    simp
  simp only [Heap.elems, hget, Option.getD_some, List.drop_zero, List.take_length]

mutual
theorem Resource.walk_alloc :
    ∀ (r : Resource) (pre post : Heap) (fuel : Nat), r.depth < fuel →
      ∃ visited : List GoResource,
        GoResource.walk fuel (pre ++ (Resource.alloc pre.length r).2 ++ post)
            (Resource.alloc pre.length r).1 = some visited ∧
        visited.map GoResource.Data = r.walk.map Resource.data
  | Resource.mk t p d ds f m rs h, pre, post, fuel, hfuel => by
      cases fuel with
      | zero => exact absurd hfuel (Nat.not_lt_zero _)
      | succ k =>
          have hk : Resource.depthList rs ≤ k := by
            simp only [Resource.depth] at hfuel
            omega
          obtain ⟨vs, hvs, hdata⟩ := Resource.walk_allocList rs pre ([(Resource.allocList
            pre.length rs).1] ++ post) k hk
          have hheap : pre ++ (Resource.allocList pre.length rs).2
                ++ ([(Resource.allocList pre.length rs).1] ++ post)
              = pre ++ ((Resource.allocList pre.length rs).2
                  ++ [(Resource.allocList pre.length rs).1]) ++ post := by
            simp
          rw [hheap] at hvs
          refine ⟨(Resource.alloc pre.length (Resource.mk t p d ds f m rs h)).1 :: vs, ?_, ?_⟩
          · simp only [Resource.alloc, GoResource.walk, Heap.elems_alloc_window, hvs,
              Option.map_some']
          · simp only [List.map_cons, Resource.walk, hdata]
            simp [Resource.alloc, Resource.data]
theorem Resource.walk_allocList :
    ∀ (rs : List Resource) (pre post : Heap) (fuel : Nat), Resource.depthList rs ≤ fuel →
      ∃ visited : List GoResource,
        GoResource.visitAll
            (GoResource.walk fuel (pre ++ (Resource.allocList pre.length rs).2 ++ post))
            (Resource.allocList pre.length rs).1 = some visited ∧
        visited.map GoResource.Data = (Resource.walkList rs).map Resource.data
  | [], pre, post, fuel, _ => ⟨[], by simp [Resource.allocList, GoResource.visitAll],
      by simp [Resource.walkList]⟩
  | r :: rs, pre, post, fuel, hfuel => by
      simp only [Resource.depthList] at hfuel
      have hr : r.depth < fuel := by omega
      have hrs : Resource.depthList rs ≤ fuel := by omega
      obtain ⟨v1, hv1, hd1⟩ := Resource.walk_alloc r pre
        ((Resource.allocList (pre.length + (Resource.alloc pre.length r).2.length) rs).2 ++ post)
        fuel hr
      obtain ⟨v2, hv2, hd2⟩ := Resource.walk_allocList rs
        (pre ++ (Resource.alloc pre.length r).2) post fuel hrs
      simp only [List.length_append] at hv2
      have hheap1 : pre ++ (Resource.alloc pre.length r).2
            ++ ((Resource.allocList (pre.length + (Resource.alloc pre.length r).2.length) rs).2
                ++ post)
          = pre ++ ((Resource.alloc pre.length r).2
              ++ (Resource.allocList (pre.length + (Resource.alloc pre.length r).2.length) rs).2)
              ++ post := by
        simp
      have hheap2 : pre ++ (Resource.alloc pre.length r).2
            ++ (Resource.allocList (pre.length + (Resource.alloc pre.length r).2.length) rs).2
            ++ post
          = pre ++ ((Resource.alloc pre.length r).2
              ++ (Resource.allocList (pre.length + (Resource.alloc pre.length r).2.length) rs).2)
              ++ post := by
        simp
      rw [hheap1] at hv1
      rw [hheap2] at hv2
      refine ⟨v1 ++ v2, ?_, ?_⟩
      · simp only [Resource.allocList, GoResource.visitAll, hv1, hv2]
      · rw [List.map_append, hd1, hd2, Resource.walkList_map_data_cons]
end

theorem GoResource.walk_loop_none :
    ∀ fuel : Nat, GoResource.walk fuel Example.loopHeap Example.loopResource = none
  | 0 => rfl
  | fuel + 1 => by
      have hel : Example.loopHeap.elems Example.loopResource.Resources
          = [Example.loopResource] := by decide
      simp only [GoResource.walk, hel, GoResource.visitAll, GoResource.walk_loop_none fuel,
        Option.map_none']

/-- C9 (as amended). Every Resource value whose `Resources` slices each have
a backing array of their own is a finite tree without cycles: its nesting
depth is a natural number that strictly decreases from a node to each node
below it (so no Resource lies below itself); laid out on any heap, the
traversal that visits a Resource and then each element of its `Resources`
slice returns as soon as its fuel exceeds the depth, and it visits the node
at every address of the tree exactly once, in order, one visit per node. -/
theorem Resource.tree_finite_acyclic_walk_once (r : Resource) :
    (∀ (a : List Nat) (c : Resource), a ≠ [] → r.nodeAt a = some c → c.depth < r.depth) ∧
    (∀ a : List Nat, a ≠ [] → r.nodeAt a ≠ some r) ∧
    r.addresses.Nodup ∧
    (∀ a : List Nat, a ∈ r.addresses ↔ (r.nodeAt a).isSome = true) ∧
    r.addresses.map r.nodeAt = r.walk.map some ∧
    r.walk.length = r.size ∧
    (∀ (pre post : Heap) (fuel : Nat), r.depth < fuel →
      ∃ visited : List GoResource,
        GoResource.walk fuel (pre ++ (Resource.alloc pre.length r).2 ++ post)
            (Resource.alloc pre.length r).1 = some visited ∧
        visited.map GoResource.Data = r.walk.map Resource.data ∧
        visited.length = r.size) :=
  ⟨fun a c ha hc => Resource.depth_nodeAt_lt a r c ha hc,
   fun a ha hc => Nat.lt_irrefl _ (Resource.depth_nodeAt_lt a r r ha hc),
   Resource.addresses_nodup r,
   Resource.mem_addresses r,
   Resource.map_nodeAt_addresses r,
   Resource.length_walk r,
   fun pre post fuel hfuel => by
     obtain ⟨visited, hv, hd⟩ := Resource.walk_alloc r pre post fuel hfuel
     refine ⟨visited, hv, hd, ?_⟩
     have := congrArg List.length hd
     simpa [Resource.length_walk] using this⟩

/-- C9 at a concrete tree of depth 2 with four nodes, laid out on the empty
heap: with fuel 3 the traversal returns and visits four nodes. -/
theorem Resource.tree_finite_acyclic_walk_once_witness :
    Example.smallTree.depth < 3 ∧
      ∃ visited : List GoResource,
        GoResource.walk 3
            (([] : Heap) ++ (Resource.alloc ([] : Heap).length Example.smallTree).2 ++ [])
            (Resource.alloc ([] : Heap).length Example.smallTree).1 = some visited ∧
        visited.map GoResource.Data = Example.smallTree.walk.map Resource.data ∧
        visited.length = Example.smallTree.size :=
  ⟨by decide,
   (Resource.tree_finite_acyclic_walk_once Example.smallTree).2.2.2.2.2.2 [] [] 3
     (by decide)⟩

/-- C9 fails as stated: the Go type admits the value `rs[0]` with
`rs[0].Resources = rs`, which is its own child; no natural number can serve
as its nesting depth and the traversal returns for no amount of fuel. -/
theorem GoResource.cyclic_value_walk_never_returns :
    Example.loopHeap.elems Example.loopResource.Resources = [Example.loopResource] ∧
    (¬ ∃ depth : GoResource → Nat,
        ∀ c ∈ Example.loopHeap.elems Example.loopResource.Resources,
          depth c < depth Example.loopResource) ∧
    (∀ fuel : Nat, GoResource.walk fuel Example.loopHeap Example.loopResource = none) := by
  refine ⟨by decide, ?_, GoResource.walk_loop_none⟩
  rintro ⟨depth, hdepth⟩
  have hel : Example.loopHeap.elems Example.loopResource.Resources
      = [Example.loopResource] := by decide
  have := hdepth Example.loopResource (by rw [hel]; exact List.mem_singleton.mpr rfl)
  exact Nat.lt_irrefl _ this

/-! ## Uniqueness checks -/

theorem hasDuplicate_eq_false_iff {α : Type} [DecidableEq α] :
    ∀ l : List α, hasDuplicate l = false ↔ l.Nodup
  | [] => by simp [hasDuplicate]
  | a :: as => by
      simp only [hasDuplicate, Bool.or_eq_false_iff, List.nodup_cons,
        hasDuplicate_eq_false_iff as]
      constructor
      · rintro ⟨h, hn⟩
        refine ⟨fun hmem => ?_, hn⟩
        have := List.any_eq_false.mp h a hmem
        simp at this
      · rintro ⟨h, hn⟩
        refine ⟨List.any_eq_false.mpr (fun b hb => ?_), hn⟩
        simp only [decide_eq_true_eq]
        rintro rfl
        exact h hb

theorem distinct_of_nodup_map {α β : Type} (f : α → β) (l : List α)
    (h : (l.map f).Nodup) (i j : Fin l.length) (hij : i ≠ j) :
    f (l.get i) ≠ f (l.get j) := by
  intro heq
  have hi : i.1 < (l.map f).length := by simp
  have hj : j.1 < (l.map f).length := by simp
  have key : (l.map f).get ⟨i.1, hi⟩ = (l.map f).get ⟨j.1, hj⟩ := by
    simpa using heq
  have := (List.nodup_iff_injective_get.mp h) key
  exact hij (Fin.ext (by simpa using this))

theorem count_filter_le_one_of_nodup_map {α β : Type} [DecidableEq β] (f : α → β)
    (l : List α) (h : (l.map f).Nodup) (b : β) :
    (l.filter (fun a => f a == b)).length ≤ 1 := by
  have h1 := List.nodup_iff_count_le_one.mp h b
  have h2 : (l.map f).count b = (l.filter (fun a => f a == b)).length := by
    rw [List.count, List.countP_map, List.countP_eq_length_filter]
    rfl
  omega

theorem find_of_nodup_map {α β : Type} [DecidableEq β] (f : α → β) :
    ∀ (l : List α), (l.map f).Nodup → ∀ a ∈ l, l.find? (fun x => f x == f a) = some a
  | [], _, a, ha => by simp at ha
  | x :: xs, h, a, ha => by
      simp only [List.map_cons, List.nodup_cons] at h
      rcases List.mem_cons.mp ha with rfl | ha
      · simp
      · have hne : f x ≠ f a := by
          intro heq
          exact h.1 (heq ▸ List.mem_map_of_mem f ha)
        have hb : (f x == f a) = false := by simpa using hne
        rw [List.find?_cons, hb]
        exact find_of_nodup_map f xs h.2 a ha

theorem Compile_ok_checks (c : APIConfig) (idx : RouteIndex)
    (h : Compile c = Except.ok idx) :
    c.hasDuplicateDefinition = false ∧
    (Resource.walkList c.Resources).any (fun r => r.hasDuplicateVerb) = false ∧
    (Resource.walkList c.Resources).any (fun r =>
      r.Methods.any (fun m => m.IntegrationRequest.violatesExclusivity)) = false ∧
    idx = RouteIndex.ofConfig c := by
  unfold Compile at h
  split at h
  · exact Except.noConfusion h
  · rename_i h1
    split at h
    · exact Except.noConfusion h
    · rename_i h2
      split at h
      · exact Except.noConfusion h
      · split at h
        · exact Except.noConfusion h
        · rename_i h4
          split at h
          · exact Except.noConfusion h
          · split at h
            · exact Except.noConfusion h
            · exact ⟨by simpa using h1, by simpa using h2, by simpa using h4,
                (Except.ok.inj h).symm⟩

theorem Compile_ok_eq (c : APIConfig) (idx : RouteIndex) (h : Compile c = Except.ok idx) :
    idx = RouteIndex.ofConfig c :=
  (Compile_ok_checks c idx h).2.2.2

/-- C1 (as amended). Every Resource of a configuration that `Compile` accepts
holds at most one Method per verb: entries of `Methods` at distinct indices
carry distinct verbs, and no verb, `MethodAny` included, labels more than one
entry. -/
theorem Compile_accepts_only_unique_verbs (c : APIConfig) (idx : RouteIndex)
    (h : Compile c = Except.ok idx) (r : Resource)
    (hr : r ∈ Resource.walkList c.Resources) :
    r.VerbsDistinct ∧ (∀ v : config.HTTPVerb, r.verbCount v ≤ 1) ∧
      r.verbCount MethodAny ≤ 1 := by
  have hall := List.any_eq_false.mp (Compile_ok_checks c idx h).2.1 r hr
  have hn : (r.Methods.map (fun m => m.HTTPVerb)).Nodup :=
    (hasDuplicate_eq_false_iff _).mp (by simpa [Resource.hasDuplicateVerb] using hall)
  refine ⟨fun i j hij => distinct_of_nodup_map _ _ hn i j hij, fun v => ?_, ?_⟩
  · exact count_filter_le_one_of_nodup_map (fun m : Method => m.HTTPVerb) _ hn v
  · exact count_filter_le_one_of_nodup_map (fun m : Method => m.HTTPVerb) _ hn MethodAny

/-- C1 at a concrete configuration: `GET` and `ANY` on `/ping` compile, and
the Resource holds one Method per verb. -/
theorem Compile_accepts_only_unique_verbs_witness :
    Compile Example.getAnyConfig = Except.ok (RouteIndex.ofConfig Example.getAnyConfig) ∧
      Example.getAnyResource.VerbsDistinct ∧
      Example.getAnyResource.verbCount MethodAny ≤ 1 :=
  ⟨rfl,
   (Compile_accepts_only_unique_verbs Example.getAnyConfig
      (RouteIndex.ofConfig Example.getAnyConfig) rfl Example.getAnyResource
      (List.mem_singleton.mpr rfl)).1,
   (Compile_accepts_only_unique_verbs Example.getAnyConfig
      (RouteIndex.ofConfig Example.getAnyConfig) rfl Example.getAnyResource
      (List.mem_singleton.mpr rfl)).2.2⟩

/-- C1 fails as stated: the Resource type admits a value whose two methods
both carry `ANY`; entries 0 and 1 have the same verb and two entries have
verb `MethodAny`. A configuration holding it does not compile. -/
theorem Resource.verbs_not_unique_in_general :
    ¬ Example.twoAnyResource.VerbsDistinct ∧
      Example.twoAnyResource.verbCount MethodAny = 2 ∧
      Compile (APIConfig.ofResources [Example.twoAnyResource])
        = Except.error ErrorKind.ConfigurationError := by
  refine ⟨fun h => ?_, by decide, rfl⟩
  exact h ⟨0, by decide⟩ ⟨1, by decide⟩ (by decide) (by decide)

/-- C2 (as amended). `Definitions` is a sequence; in a configuration that
`Compile` accepts no two entries have the same `Name`, and every entry is
what its name resolves to. -/
theorem Compile_accepts_only_unique_definitions (c : APIConfig) (idx : RouteIndex)
    (h : Compile c = Except.ok idx) :
    c.NamesDistinct ∧ ∀ d ∈ c.Definitions, c.findDefinition d.Name = some d := by
  have hn : (c.Definitions.map (fun d => d.Name)).Nodup :=
    (hasDuplicate_eq_false_iff _).mp (Compile_ok_checks c idx h).1
  exact ⟨fun i j hij => distinct_of_nodup_map _ _ hn i j hij,
    fun d hd => find_of_nodup_map (fun d : Definition => d.Name) _ hn d hd⟩

/-- C2 at a concrete configuration with the definitions `User` and `Order`:
it compiles and its names are distinct. -/
theorem Compile_accepts_only_unique_definitions_witness :
    Compile Example.userOrderDefinitions
        = Except.ok (RouteIndex.ofConfig Example.userOrderDefinitions) ∧
      Example.userOrderDefinitions.NamesDistinct :=
  ⟨rfl, (Compile_accepts_only_unique_definitions Example.userOrderDefinitions
    (RouteIndex.ofConfig Example.userOrderDefinitions) rfl).1⟩

/-- C2 fails as stated: `Definitions` is a slice and admits two entries named
`User`; the second one is not what the name resolves to. The configuration
does not compile. -/
theorem APIConfig.definitions_not_unique_in_general :
    ¬ Example.twoUserDefinitions.NamesDistinct ∧
      Example.twoUserDefinitions.Definitions.find? (fun x => x.Name == "User")
        = some { Name := "User", Schema := "object" } ∧
      ({ Name := "User", Schema := "string" } : Definition)
        ∈ Example.twoUserDefinitions.Definitions ∧
      Compile Example.twoUserDefinitions = Except.error ErrorKind.ConfigurationError := by
  refine ⟨fun h => ?_, by decide, by decide, rfl⟩
  exact h ⟨0, by decide⟩ ⟨1, by decide⟩ (by decide) (by decide)

theorem IntegrationRequest.exclusive_of_not_violates (q : IntegrationRequest)
    (h : q.violatesExclusivity = false) : q.ExclusiveByTag ∧ q.AtMostOneBackend := by
  unfold IntegrationRequest.violatesExclusivity at h
  unfold IntegrationRequest.ExclusiveByTag IntegrationRequest.AtMostOneBackend
  by_cases hd : q.RequestType = DubboRequest
  · have hz : q.HTTPBackendConfig = HTTPBackendConfig.zero := by simpa [hd] using h
    refine ⟨⟨fun _ => hz, fun hh => ?_⟩, Or.inr hz⟩
    rw [hd] at hh
    exact absurd hh (by decide)
  · by_cases hh : q.RequestType = HTTPRequest
    · have hz : q.DubboBackendConfig = DubboBackendConfig.zero := by simpa [hd, hh] using h
      exact ⟨⟨fun hd2 => absurd hd2 hd, fun _ => hz⟩, Or.inl hz⟩
    · refine ⟨⟨fun hd2 => absurd hd2 hd, fun hh2 => absurd hh2 hh⟩, ?_⟩
      have : ¬ (q.DubboBackendConfig ≠ DubboBackendConfig.zero ∧
          q.HTTPBackendConfig ≠ HTTPBackendConfig.zero) := by simpa [hd, hh] using h
      by_cases hz : q.DubboBackendConfig = DubboBackendConfig.zero
      · exact Or.inl hz
      · exact Or.inr (by_contra fun hz2 => this ⟨hz, hz2⟩)

/-- C3 (as amended). Every IntegrationRequest of a configuration that
`Compile` accepts has the backend config its `RequestType` does not select at
the zero value: tagged `dubbo` its HTTP backend is zero, tagged `http` its
dubbo backend is zero; under any tag the two are not both populated. -/
theorem Compile_accepts_only_exclusive_backends (c : APIConfig) (idx : RouteIndex)
    (h : Compile c = Except.ok idx) (r : Resource)
    (hr : r ∈ Resource.walkList c.Resources) (m : Method) (hm : m ∈ r.Methods) :
    m.IntegrationRequest.ExclusiveByTag ∧ m.IntegrationRequest.AtMostOneBackend := by
  have hall := List.any_eq_false.mp (Compile_ok_checks c idx h).2.2.1 r hr
  have hm2 := List.any_eq_false.mp (by simpa using hall) m hm
  exact IntegrationRequest.exclusive_of_not_violates _ (by simpa using hm2)

/-- C3 at a concrete configuration whose one method is tagged `dubbo` and
carries only a dubbo backend. -/
theorem Compile_accepts_only_exclusive_backends_witness :
    Compile Example.dubboOnlyConfig
        = Except.ok (RouteIndex.ofConfig Example.dubboOnlyConfig) ∧
      Example.dubboOnly.ExclusiveByTag :=
  ⟨rfl, (Compile_accepts_only_exclusive_backends Example.dubboOnlyConfig
    (RouteIndex.ofConfig Example.dubboOnlyConfig) rfl Example.dubboOnlyResource
    (List.mem_singleton.mpr rfl) Example.dubboOnlyMethod (List.mem_singleton.mpr rfl)).1⟩

/-- C3 fails as stated: the type admits a request tagged `dubbo` whose HTTP
backend is populated. A configuration holding it does not compile. -/
theorem IntegrationRequest.not_exclusive_in_general :
    Example.dubboWithHTTP.RequestType = DubboRequest ∧
      Example.dubboWithHTTP.HTTPBackendConfig ≠ HTTPBackendConfig.zero ∧
      ¬ Example.dubboWithHTTP.ExclusiveByTag ∧
      Compile Example.dubboWithHTTPConfig = Except.error ErrorKind.ConfigurationError := by
  refine ⟨by decide, by decide, fun h => ?_, rfl⟩
  exact absurd (h.1 (by decide)) (by decide)

/-- C4. The declared JSON key and YAML key agree on every field of the twelve
structs but one: `HTTPBackendConfig.Schema` is `scheme` for JSON and `schema`
for YAML. -/
theorem json_yaml_keys_differ_only_at_schema :
    keyMismatches = [("HTTPBackendConfig", "Schema", some "scheme", some "schema")] ∧
      allFields.length = 53 := by
  decide

/-- C8 (as amended). The zero-value `DubboBackendConfig` has the empty
`Protocol`; `dubbo` is the default the field declares in its `default`
tag. -/
theorem DubboBackendConfig.protocol_default_is_declared :
    DubboBackendConfig.zero.Protocol = "" ∧
      (fieldOf "DubboBackendConfig" "Protocol").bind (fun f => f.lookup "default")
        = some "dubbo" := by
  decide

/-- C8 fails as stated: the `Protocol` of the zero value is not `dubbo`. -/
theorem DubboBackendConfig.zero_protocol_ne_dubbo :
    DubboBackendConfig.zero.Protocol ≠ "dubbo" := by
  decide

/-- C10. The eight `HTTPVerb` constants are pairwise distinct, and `MethodAny`
differs from each of the seven concrete verbs. -/
theorem httpVerb_constants_pairwise_distinct :
    httpVerbConstants.Pairwise (fun a b => a ≠ b) ∧
      httpVerbConstants.length = 8 ∧
      ∀ v ∈ [MethodGet, MethodHead, MethodPost, MethodPut, MethodPatch, MethodDelete,
              MethodOptions], MethodAny ≠ v := by
  decide

/-! ## Route Index -/

theorem Trie.lookup_updateChild_self (s : String) (f : Trie → Trie) :
    ∀ ls : List (String × Trie),
      (Trie.updateChild s f ls).lookup s = some (f ((ls.lookup s).getD Trie.empty))
  | [] => by simp [Trie.updateChild, List.lookup]
  | (k, t) :: ls => by
      by_cases hk : k = s
      · subst hk
        simp [Trie.updateChild, List.lookup]
      · have hb : (k == s) = false := by simpa using hk
        have hb2 : (s == k) = false := by simpa using fun h => hk h.symm
        simp only [Trie.updateChild, hb, Bool.false_eq_true, ↓reduceIte, List.lookup, hb2]
        exact Trie.lookup_updateChild_self s f ls

theorem Trie.lookup_updateChild_ne (s s2 : String) (f : Trie → Trie) (hne : s2 ≠ s) :
    ∀ ls : List (String × Trie), (Trie.updateChild s f ls).lookup s2 = ls.lookup s2
  | [] => by
      have hb : (s2 == s) = false := by simpa using hne
      simp [Trie.updateChild, List.lookup, hb]
  | (k, t) :: ls => by
      by_cases hk : k = s
      · subst hk
        have hb : (s2 == k) = false := by simpa using hne
        simp [Trie.updateChild, List.lookup, hb]
      · have hb : (k == s) = false := by simpa using hk
        simp only [Trie.updateChild, hb, Bool.false_eq_true, ↓reduceIte, List.lookup]
        rw [Trie.lookup_updateChild_ne s s2 f hne ls]

theorem Trie.literalRoutes_empty : ∀ p : List String, Trie.literalRoutes p Trie.empty = []
  | [] => rfl
  | _ :: _ => by simp [Trie.literalRoutes, Trie.empty, List.lookup]

theorem Trie.literalRoutes_insert (r : Route) :
    ∀ (p : List String) (tpl : List Segment) (t : Trie),
      Trie.literalRoutes p (Trie.insert tpl r t)
        = Trie.literalRoutes p t ++ (if tpl = p.map Segment.lit then [r] else [])
  | [], [], Trie.node rs ls v w => by simp [Trie.insert, Trie.literalRoutes]
  | [], Segment.lit s :: rest, Trie.node rs ls v w => by
      simp [Trie.insert, Trie.literalRoutes]
  | [], Segment.var x :: rest, Trie.node rs ls v w => by
      simp [Trie.insert, Trie.literalRoutes]
  | [], Segment.wild x :: rest, Trie.node rs ls v w => by
      simp [Trie.insert, Trie.literalRoutes]
  | a :: p, [], Trie.node rs ls v w => by
      simp [Trie.insert, Trie.literalRoutes]
  | a :: p, Segment.var x :: rest, Trie.node rs ls v w => by
      simp [Trie.insert, Trie.literalRoutes]
  | a :: p, Segment.wild x :: rest, Trie.node rs ls v w => by
      simp [Trie.insert, Trie.literalRoutes]
  | a :: p, Segment.lit s :: rest, Trie.node rs ls v w => by
      simp only [Trie.insert, Trie.literalRoutes, List.map_cons, List.cons.injEq,
        Segment.lit.injEq]
      by_cases has : a = s
      · subst has
        rw [Trie.lookup_updateChild_self]
        simp only [true_and]
        rw [Trie.literalRoutes_insert r p rest]
        cases hl : ls.lookup a with
        | none => simp [Trie.literalRoutes_empty]
        | some c => simp
      · rw [Trie.lookup_updateChild_ne s a _ has]
        have hsa : ¬ s = a := fun h => has h.symm
        simp [hsa]

theorem Trie.literalRoutes_foldl (p : List String) :
    ∀ (routes : List Route) (t : Trie),
      Trie.literalRoutes p (routes.foldl (fun t r => Trie.insert r.Template r t) t)
        = Trie.literalRoutes p t
            ++ routes.filter (fun r => decide (r.Template = p.map Segment.lit))
  | [], t => by simp
  | r :: routes, t => by
      simp only [List.foldl_cons]
      rw [Trie.literalRoutes_foldl p routes, Trie.literalRoutes_insert]
      by_cases h : r.Template = p.map Segment.lit
      · simp [h, List.filter_cons]
      · simp [h, List.filter_cons]

theorem Trie.literalRoutes_build (p : List String) (routes : List Route) :
    Trie.literalRoutes p (Trie.build routes)
      = routes.filter (fun r => decide (r.Template = p.map Segment.lit)) := by
  unfold Trie.build
  rw [Trie.literalRoutes_foldl, Trie.literalRoutes_empty]
  simp

theorem Trie.lookup_of_literalRoutes :
    ∀ (p : List String) (t : Trie) (caps : List String) (r : Route) (rs : List Route),
      Trie.literalRoutes p t = r :: rs → Trie.lookup p t caps = some (r, caps)
  | [], Trie.node rs0 ls v w, caps, r, rs, h => by
      simp only [Trie.literalRoutes] at h
      simp [Trie.lookup, h]
  | s :: rest, Trie.node rs0 ls v w, caps, r, rs, h => by
      simp only [Trie.literalRoutes] at h
      cases hl : ls.lookup s with
      | none => simp [hl] at h
      | some c =>
          simp only [hl] at h
          simp only [Trie.lookup, hl]
          exact Trie.lookup_of_literalRoutes rest c caps r rs h

theorem Trie.lookup_nil (t : Trie) (caps : List String) :
    Trie.lookup [] t caps = t.ends.head?.map (fun r => (r, caps)) := by
  cases t; rfl

theorem Trie.lookup_cons (s : String) (rest : List String) (t : Trie) (caps : List String) :
    Trie.lookup (s :: rest) t caps =
      match t.literals.lookup s with
      | some c => Trie.lookup rest c caps
      | none =>
          match t.variable? with
          | some c => Trie.lookup rest c (caps ++ [s])
          | none => t.wildcards.head?.map (fun r => (r, caps ++ [joinSegments (s :: rest)])) := by
  cases t; rfl

theorem Trie.ends_insert (tpl : List Segment) (r : Route) (t : Trie) :
    (Trie.insert tpl r t).ends = t.ends ++ (Candidate.endRoute (tpl, r)).toList := by
  cases t with
  | node rs ls v w =>
      cases tpl with
      | nil => simp [Trie.insert, Trie.ends, Candidate.endRoute]
      | cons seg tl => cases seg <;> simp [Trie.insert, Trie.ends, Candidate.endRoute]

theorem Trie.wildcards_insert (tpl : List Segment) (r : Route) (t : Trie) :
    (Trie.insert tpl r t).wildcards = t.wildcards ++ (Candidate.wildcardRoute (tpl, r)).toList := by
  cases t with
  | node rs ls v w =>
      cases tpl with
      | nil => simp [Trie.insert, Trie.wildcards, Candidate.wildcardRoute]
      | cons seg tl => cases seg <;> simp [Trie.insert, Trie.wildcards, Candidate.wildcardRoute]

theorem Trie.variable_insert (tpl : List Segment) (r : Route) (t : Trie) :
    (Trie.insert tpl r t).variable? =
      match Candidate.variableTail (tpl, r) with
      | some c => some (Trie.insert c.1 c.2 (t.variable?.getD Trie.empty))
      | none => t.variable? := by
  cases t with
  | node rs ls v w =>
      cases tpl with
      | nil => simp [Trie.insert, Trie.variable?, Candidate.variableTail]
      | cons seg tl => cases seg <;> simp [Trie.insert, Trie.variable?, Candidate.variableTail]

theorem Trie.literals_insert (s : String) (tpl : List Segment) (r : Route) (t : Trie) :
    (Trie.insert tpl r t).literals.lookup s =
      match Candidate.literalTail s (tpl, r) with
      | some c => some (Trie.insert c.1 c.2 ((t.literals.lookup s).getD Trie.empty))
      | none => t.literals.lookup s := by
  cases t with
  | node rs ls v w =>
      cases tpl with
      | nil => simp [Trie.insert, Trie.literals, Candidate.literalTail]
      | cons seg tl =>
          cases seg with
          | var x => simp [Trie.insert, Trie.literals, Candidate.literalTail]
          | wild x => simp [Trie.insert, Trie.literals, Candidate.literalTail]
          | lit x =>
              simp only [Trie.insert, Trie.literals, Candidate.literalTail]
              by_cases hx : x = s
              · subst hx
                simp [Trie.lookup_updateChild_self]
              · have hsx : s ≠ x := fun h => hx h.symm
                simp [hx, Trie.lookup_updateChild_ne x s _ hsx]

theorem Trie.ends_insertAll :
    ∀ (cs : List Candidate) (t : Trie),
      (Trie.insertAll cs t).ends = t.ends ++ cs.filterMap Candidate.endRoute
  | [], t => by simp [Trie.insertAll]
  | c :: cs, t => by
      have ih := Trie.ends_insertAll cs (Trie.insert c.1 c.2 t)
      simp only [Trie.insertAll, List.foldl_cons] at ih ⊢
      rw [ih, Trie.ends_insert, List.filterMap_cons]
      cases h : Candidate.endRoute c <;> simp [h]

theorem Trie.wildcards_insertAll :
    ∀ (cs : List Candidate) (t : Trie),
      (Trie.insertAll cs t).wildcards = t.wildcards ++ cs.filterMap Candidate.wildcardRoute
  | [], t => by simp [Trie.insertAll]
  | c :: cs, t => by
      have ih := Trie.wildcards_insertAll cs (Trie.insert c.1 c.2 t)
      simp only [Trie.insertAll, List.foldl_cons] at ih ⊢
      rw [ih, Trie.wildcards_insert, List.filterMap_cons]
      cases h : Candidate.wildcardRoute c <;> simp [h]

theorem Trie.variable_insertAll :
    ∀ (cs : List Candidate) (t : Trie),
      (Trie.insertAll cs t).variable? =
        match cs.filterMap Candidate.variableTail with
        | [] => t.variable?
        | v :: vs => some (Trie.insertAll (v :: vs) (t.variable?.getD Trie.empty))
  | [], t => by simp [Trie.insertAll]
  | c :: cs, t => by
      have ih := Trie.variable_insertAll cs (Trie.insert c.1 c.2 t)
      have hstep : Trie.insertAll (c :: cs) t = Trie.insertAll cs (Trie.insert c.1 c.2 t) := rfl
      rw [hstep, ih, Trie.variable_insert, List.filterMap_cons]
      cases h : Candidate.variableTail c with
      | none => simp
      | some d =>
          cases hcs : cs.filterMap Candidate.variableTail with
          | nil => simp [Trie.insertAll]
          | cons v vs => simp [Trie.insertAll]

theorem Trie.literals_insertAll (s : String) :
    ∀ (cs : List Candidate) (t : Trie),
      (Trie.insertAll cs t).literals.lookup s =
        match cs.filterMap (Candidate.literalTail s) with
        | [] => t.literals.lookup s
        | l :: ls => some (Trie.insertAll (l :: ls) ((t.literals.lookup s).getD Trie.empty))
  | [], t => by simp [Trie.insertAll]
  | c :: cs, t => by
      have ih := Trie.literals_insertAll s cs (Trie.insert c.1 c.2 t)
      have hstep : Trie.insertAll (c :: cs) t = Trie.insertAll cs (Trie.insert c.1 c.2 t) := rfl
      rw [hstep, ih, Trie.literals_insert, List.filterMap_cons]
      cases h : Candidate.literalTail s c with
      | none => simp
      | some d =>
          cases hcs : cs.filterMap (Candidate.literalTail s) with
          | nil => simp [Trie.insertAll]
          | cons l ls => simp [Trie.insertAll]

theorem Trie.lookup_insertAll :
    ∀ (path : List String) (cs : List Candidate) (caps : List String),
      Trie.lookup path (Trie.insertAll cs Trie.empty) caps = priorityLookup path cs caps
  | [], cs, caps => by
      rw [Trie.lookup_nil, Trie.ends_insertAll]
      simp [priorityLookup, Trie.empty, Trie.ends]
  | s :: rest, cs, caps => by
      rw [Trie.lookup_cons, Trie.literals_insertAll, Trie.variable_insertAll,
        Trie.wildcards_insertAll]
      simp only [priorityLookup]
      cases hl : cs.filterMap (Candidate.literalTail s) with
      | cons l ls =>
          simp only [Trie.empty, Trie.literals, List.lookup, Option.getD_none]
          exact Trie.lookup_insertAll rest (l :: ls) caps
      | nil =>
          simp only [Trie.empty, Trie.literals, List.lookup]
          cases hv : cs.filterMap Candidate.variableTail with
          | cons v vs =>
              simp only [Trie.variable?, Option.getD_none]
              exact Trie.lookup_insertAll rest (v :: vs) (caps ++ [s])
          | nil => simp [Trie.variable?, Trie.wildcards]

theorem Trie.build_eq_insertAll (routes : List Route) :
    Trie.build routes = Trie.insertAll (candidates routes) Trie.empty := by
  simp [Trie.build, Trie.insertAll, candidates, List.foldl_map]

theorem templateMatches_nil_right (t : List Segment) (h : templateMatches t [] = true) :
    t = [] := by
  cases t with
  | nil => rfl
  | cons seg tl => cases seg <;> simp [templateMatches] at h

theorem priorityLookup_outranks :
    ∀ (path : List String) (cs : List Candidate) (caps : List String) (r0 : Route)
      (caps2 : List String),
      priorityLookup path cs caps = some (r0, caps2) →
      ∃ t0 : List Segment, (t0, r0) ∈ cs ∧ templateMatches t0 path = true ∧
        ∀ c ∈ cs, templateMatches c.1 path = true → outranks t0 c.1 = true
  | [], cs, caps, r0, caps2, h => by
      simp only [priorityLookup] at h
      cases hl : cs.filterMap Candidate.endRoute with
      | nil => simp [hl] at h
      | cons r rs =>
          simp only [hl, List.head?_cons, Option.map_some', Option.some.injEq,
            Prod.mk.injEq] at h
          have hmem : r0 ∈ cs.filterMap Candidate.endRoute := by
            rw [hl, ← h.1]; exact List.mem_cons_self _ _
          obtain ⟨c, hc, hend⟩ := List.mem_filterMap.mp hmem
          obtain ⟨t, r⟩ := c
          cases t with
          | cons seg tl => simp [Candidate.endRoute] at hend
          | nil =>
              simp only [Candidate.endRoute, Option.some.injEq] at hend
              subst hend
              refine ⟨[], hc, rfl, fun c2 _ hm => ?_⟩
              rw [templateMatches_nil_right c2.1 hm]
              rfl
  | s :: rest, cs, caps, r0, caps2, h => by
      simp only [priorityLookup] at h
      cases hl : cs.filterMap (Candidate.literalTail s) with
      | cons l ls =>
          simp only [hl] at h
          obtain ⟨t0, ht0, hm0, hbest⟩ :=
            priorityLookup_outranks rest (l :: ls) caps r0 caps2 h
          rw [← hl] at ht0 hbest
          obtain ⟨c, hc, htail⟩ := List.mem_filterMap.mp ht0
          obtain ⟨t, r⟩ := c
          have hc2 : t = Segment.lit s :: t0 ∧ r = r0 := by
            cases t with
            | nil => simp [Candidate.literalTail] at htail
            | cons seg tl =>
                cases seg with
                | var x => simp [Candidate.literalTail] at htail
                | wild x => simp [Candidate.literalTail] at htail
                | lit x =>
                    simp only [Candidate.literalTail] at htail
                    by_cases hx : x = s
                    · simp only [hx, ↓reduceIte, Option.some.injEq, Prod.mk.injEq] at htail
                      exact ⟨by rw [hx, htail.1], htail.2⟩
                    · simp [hx] at htail
          obtain ⟨rfl, rfl⟩ := hc2
          refine ⟨Segment.lit s :: t0, hc, by simp [templateMatches, hm0], ?_⟩
          intro c2 hc2 hm2
          obtain ⟨t2, r2⟩ := c2
          cases t2 with
          | nil => simp [templateMatches] at hm2
          | cons seg tl =>
              cases seg with
              | var x => rfl
              | wild x => rfl
              | lit x =>
                  simp only [templateMatches, Bool.and_eq_true, beq_iff_eq] at hm2
                  have hin : (tl, r2) ∈ cs.filterMap (Candidate.literalTail s) :=
                    List.mem_filterMap.mpr ⟨(Segment.lit x :: tl, r2), hc2,
                      by simp [Candidate.literalTail, hm2.1]⟩
                  simpa [outranks] using hbest (tl, r2) hin hm2.2
      | nil =>
          simp only [hl] at h
          have nolit : ∀ (x : String) (tl : List Segment) (r2 : Route),
              (Segment.lit x :: tl, r2) ∈ cs → x ≠ s := by
            intro x tl r2 hmem hx
            have hin : (tl, r2) ∈ cs.filterMap (Candidate.literalTail s) :=
              List.mem_filterMap.mpr ⟨(Segment.lit x :: tl, r2), hmem,
                by simp [Candidate.literalTail, hx]⟩
            rw [hl] at hin
            simp at hin
          cases hv : cs.filterMap Candidate.variableTail with
          | cons v vs =>
              simp only [hv] at h
              obtain ⟨t0, ht0, hm0, hbest⟩ :=
                priorityLookup_outranks rest (v :: vs) (caps ++ [s]) r0 caps2 h
              rw [← hv] at ht0 hbest
              obtain ⟨c, hc, htail⟩ := List.mem_filterMap.mp ht0
              obtain ⟨t, r⟩ := c
              have hc2 : ∃ x, t = Segment.var x :: t0 ∧ r = r0 := by
                cases t with
                | nil => simp [Candidate.variableTail] at htail
                | cons seg tl =>
                    cases seg with
                    | lit x => simp [Candidate.variableTail] at htail
                    | wild x => simp [Candidate.variableTail] at htail
                    | var x =>
                        simp only [Candidate.variableTail, Option.some.injEq,
                          Prod.mk.injEq] at htail
                        exact ⟨x, by rw [htail.1], htail.2⟩
              obtain ⟨x0, rfl, rfl⟩ := hc2
              refine ⟨Segment.var x0 :: t0, hc, by simp [templateMatches, hm0], ?_⟩
              intro c2 hc2 hm2
              obtain ⟨t2, r2⟩ := c2
              cases t2 with
              | nil => simp [templateMatches] at hm2
              | cons seg tl =>
                  cases seg with
                  | wild x => rfl
                  | lit x =>
                      simp only [templateMatches, Bool.and_eq_true, beq_iff_eq] at hm2
                      exact absurd hm2.1 (nolit x tl r2 hc2)
                  | var x =>
                      simp only [templateMatches] at hm2
                      have hin : (tl, r2) ∈ cs.filterMap Candidate.variableTail :=
                        List.mem_filterMap.mpr ⟨(Segment.var x :: tl, r2), hc2,
                          by simp [Candidate.variableTail]⟩
                      simpa [outranks] using hbest (tl, r2) hin hm2
          | nil =>
              simp only [hv] at h
              have novar : ∀ (x : String) (tl : List Segment) (r2 : Route),
                  (Segment.var x :: tl, r2) ∉ cs := by
                intro x tl r2 hmem
                have hin : (tl, r2) ∈ cs.filterMap Candidate.variableTail :=
                  List.mem_filterMap.mpr ⟨(Segment.var x :: tl, r2), hmem,
                    by simp [Candidate.variableTail]⟩
                rw [hv] at hin
                simp at hin
              cases hw : cs.filterMap Candidate.wildcardRoute with
              | nil => simp [hw] at h
              | cons r rs =>
                  simp only [hw, List.head?_cons, Option.map_some', Option.some.injEq,
                    Prod.mk.injEq] at h
                  have hmem : r0 ∈ cs.filterMap Candidate.wildcardRoute := by
                    rw [hw, ← h.1]; exact List.mem_cons_self _ _
                  obtain ⟨c, hc, hwild⟩ := List.mem_filterMap.mp hmem
                  obtain ⟨t, r1⟩ := c
                  cases t with
                  | nil => simp [Candidate.wildcardRoute] at hwild
                  | cons seg tl =>
                      cases seg with
                      | lit x => simp [Candidate.wildcardRoute] at hwild
                      | var x => simp [Candidate.wildcardRoute] at hwild
                      | wild x =>
                          simp only [Candidate.wildcardRoute, Option.some.injEq] at hwild
                          subst hwild
                          refine ⟨Segment.wild x :: tl, hc, rfl, ?_⟩
                          intro c2 hc2 hm2
                          obtain ⟨t2, r2⟩ := c2
                          cases t2 with
                          | nil => simp [templateMatches] at hm2
                          | cons seg2 tl2 =>
                              cases seg2 with
                              | wild y => rfl
                              | var y => exact absurd hc2 (novar y tl2 r2)
                              | lit y =>
                                  simp only [templateMatches, Bool.and_eq_true,
                                    beq_iff_eq] at hm2
                                  exact absurd hm2.1 (nolit y tl2 r2 hc2)

theorem find?_of_filter_eq_cons {α : Type} (p : α → Bool) (a : α) (rest : List α) :
    ∀ l : List α, l.filter p = a :: rest → l.find? p = some a
  | [], h => by simp at h
  | x :: xs, h => by
      rw [List.filter_cons] at h
      cases hp : p x with
      | true =>
          simp only [hp, ↓reduceIte, List.cons.injEq] at h
          rw [List.find?_cons, hp, h.1]
      | false =>
          simp only [hp, Bool.false_eq_true, ↓reduceIte] at h
          simp only [List.find?_cons, hp]
          exact find?_of_filter_eq_cons p a rest xs h

theorem RouteIndex.resolve_literal (c : APIConfig) (idx : RouteIndex) (path : String)
    (r : Route) (hc : Compile c = Except.ok idx)
    (hr : r ∈ Resource.routesList "" c.Resources)
    (ht : r.Template = (splitPath path).map Segment.lit) :
    ∃ r0 : Route,
      (Resource.routesList "" c.Resources).find?
          (fun x => decide (x.Template = (splitPath path).map Segment.lit)) = some r0 ∧
      r0.Template = (splitPath path).map Segment.lit ∧
      idx.resolve path = some (r0, []) ∧
      ∀ (verb : config.HTTPVerb) (m : Method),
        selectMethod r0.Methods verb = some m → m.OnAir = true →
          idx.Match verb path
            = Except.ok { Path := r0.Path, Method := m, PathVariables := [] } := by
  have hidx := Compile_ok_eq c idx hc
  subst hidx
  cases hf : (Resource.routesList "" c.Resources).filter
      (fun x => decide (x.Template = (splitPath path).map Segment.lit)) with
  | nil =>
      have hmem : r ∈ (Resource.routesList "" c.Resources).filter
          (fun x => decide (x.Template = (splitPath path).map Segment.lit)) :=
        List.mem_filter.mpr ⟨hr, by simpa using ht⟩
      rw [hf] at hmem
      simp at hmem
  | cons r0 rest =>
      have hfind := find?_of_filter_eq_cons _ r0 rest _ hf
      have hres : (RouteIndex.ofConfig c).resolve path = some (r0, []) := by
        unfold RouteIndex.resolve RouteIndex.ofConfig
        apply Trie.lookup_of_literalRoutes _ _ _ r0 rest
        rw [Trie.literalRoutes_build, hf]
      refine ⟨r0, hfind, by simpa using List.find?_some hfind, hres, ?_⟩
      intro verb m hsel hon
      unfold RouteIndex.Match
      simp only [hres, hsel, hon, ↓reduceIte, List.zip_nil_right]

theorem RouteIndex.resolve_eq_priorityLookup (c : APIConfig) (idx : RouteIndex)
    (path : String) (hc : Compile c = Except.ok idx) :
    idx.resolve path
      = priorityLookup (splitPath path) (candidates (Resource.routesList "" c.Resources)) [] := by
  have hidx := Compile_ok_eq c idx hc
  subst hidx
  unfold RouteIndex.resolve RouteIndex.ofConfig
  simp only
  rw [Trie.build_eq_insertAll, Trie.lookup_insertAll]

theorem RouteIndex.resolve_outranks (c : APIConfig) (idx : RouteIndex) (path : String)
    (r0 : Route) (caps : List String) (hc : Compile c = Except.ok idx)
    (hres : idx.resolve path = some (r0, caps)) :
    r0 ∈ Resource.routesList "" c.Resources ∧
      templateMatches r0.Template (splitPath path) = true ∧
      ∀ r ∈ Resource.routesList "" c.Resources,
        templateMatches r.Template (splitPath path) = true →
          outranks r0.Template r.Template = true := by
  rw [RouteIndex.resolve_eq_priorityLookup c idx path hc] at hres
  obtain ⟨t0, ht0, hm0, hbest⟩ := priorityLookup_outranks _ _ _ _ _ hres
  simp only [candidates, List.mem_map, Prod.mk.injEq] at ht0
  obtain ⟨r, hr, hrt, hrr⟩ := ht0
  subst hrr
  subst hrt
  refine ⟨hr, hm0, fun r2 hr2 hm2 => ?_⟩
  exact hbest (r2.Template, r2) (List.mem_map.mpr ⟨r2, hr2, rfl⟩) hm2

theorem RouteIndex.Match_ok_route (idx : RouteIndex) (verb : config.HTTPVerb)
    (path : String) (mm : MatchedMethod) (h : idx.Match verb path = Except.ok mm) :
    ∃ (r0 : Route) (caps : List String),
      idx.resolve path = some (r0, caps) ∧ mm.Path = r0.Path ∧
      selectMethod r0.Methods verb = some mm.Method ∧
      mm.PathVariables = (r0.Template.filterMap Segment.captureName).zip caps := by
  unfold RouteIndex.Match at h
  cases hres : idx.resolve path with
  | none => simp [hres] at h
  | some rc =>
      obtain ⟨route, caps⟩ := rc
      simp only [hres] at h
      cases hsel : selectMethod route.Methods verb with
      | none => simp [hsel] at h
      | some m =>
          simp only [hsel] at h
          cases hon : m.OnAir with
          | false => simp [hon] at h
          | true =>
              simp only [hon, ↓reduceIte, Except.ok.injEq] at h
              subst h
              exact ⟨route, caps, rfl, rfl, hsel, rfl⟩

/-- C6. In every compiled configuration the trie resolves a path exactly as
the priority rule does on the routes themselves: at each level the routes
with the literal path element are kept if there is one, else the routes with
a variable. Hence the route of a `MatchedMethod` that `Match` returns matches
the path and outranks every configured route that matches it: at the first
level where the two differ in kind it has the literal against the variable
(or the variable against the wildcard). At every level of the trie the
literal child for the next path element is taken whether or not there is a
variable child, and the variable child, capturing the element, only when no
literal child fits. In every compiled configuration that has a route whose
template is the request path taken literally, the path resolves to the
first-declared such route with nothing captured, whatever variable or
wildcard routes the configuration has, and `Match` returns that route with
the method the verb selects when it is on air. With the routes `/a/:x` and
`/a/b`, in either declaration order and whatever their method sets, `/a/b`
resolves to the literal route and `/a/c` to the variable route with the
value `c` captured; compiled with one `GET` method each, `Match` returns the
literal route for `/a/b` and the variable route with `x = c` for `/a/c`.
Below a variable segment the same holds: with `/u/:id/profile` and
`/u/:id/:tab`, in either order, `/u/7/profile` goes to the literal route and
`/u/7/posts` to the variable one. -/
theorem Trie.literal_outranks_variable :
    (∀ (c : APIConfig) (idx : RouteIndex) (path : String),
        Compile c = Except.ok idx →
        idx.resolve path
          = priorityLookup (splitPath path)
              (candidates (Resource.routesList "" c.Resources)) []) ∧
    (∀ (c : APIConfig) (idx : RouteIndex) (path : String) (r0 : Route)
        (caps : List String),
        Compile c = Except.ok idx →
        idx.resolve path = some (r0, caps) →
        r0 ∈ Resource.routesList "" c.Resources ∧
          templateMatches r0.Template (splitPath path) = true ∧
          ∀ r ∈ Resource.routesList "" c.Resources,
            templateMatches r.Template (splitPath path) = true →
              outranks r0.Template r.Template = true) ∧
    (∀ (c : APIConfig) (idx : RouteIndex) (verb : config.HTTPVerb) (path : String)
        (mm : MatchedMethod),
        Compile c = Except.ok idx →
        idx.Match verb path = Except.ok mm →
        ∃ r0 ∈ Resource.routesList "" c.Resources,
          mm.Path = r0.Path ∧ selectMethod r0.Methods verb = some mm.Method ∧
          templateMatches r0.Template (splitPath path) = true ∧
          ∀ r ∈ Resource.routesList "" c.Resources,
            templateMatches r.Template (splitPath path) = true →
              outranks r0.Template r.Template = true) ∧
    (∀ (s : String) (rest caps : List String) (cs : List Candidate) (l : Candidate)
        (ls : List Candidate),
        cs.filterMap (Candidate.literalTail s) = l :: ls →
          Trie.lookup (s :: rest) (Trie.insertAll cs Trie.empty) caps
            = Trie.lookup rest (Trie.insertAll (l :: ls) Trie.empty) caps) ∧
    (Compile Example.profileFirst = Except.ok (RouteIndex.ofConfig Example.profileFirst) ∧
      (RouteIndex.ofConfig Example.profileFirst).Match MethodGet "/u/7/profile"
        = Except.ok { Path := "/u/:id/profile",
                      Method := Method.simple MethodGet true "profile",
                      PathVariables := [("id", "7")] } ∧
      (RouteIndex.ofConfig Example.profileFirst).Match MethodGet "/u/7/posts"
        = Except.ok { Path := "/u/:id/:tab", Method := Method.simple MethodGet true "tab",
                      PathVariables := [("id", "7"), ("tab", "posts")] }) ∧
    (Compile Example.tabFirst = Except.ok (RouteIndex.ofConfig Example.tabFirst) ∧
      (RouteIndex.ofConfig Example.tabFirst).Match MethodGet "/u/7/profile"
        = Except.ok { Path := "/u/:id/profile",
                      Method := Method.simple MethodGet true "profile",
                      PathVariables := [("id", "7")] } ∧
      (RouteIndex.ofConfig Example.tabFirst).Match MethodGet "/u/7/posts"
        = Except.ok { Path := "/u/:id/:tab", Method := Method.simple MethodGet true "tab",
                      PathVariables := [("id", "7"), ("tab", "posts")] }) ∧
    (∀ (rs : List Route) (ls : List (String × Trie)) (v : Option Trie) (w : List Route)
        (s : String) (rest caps : List String) (c : Trie),
        ls.lookup s = some c →
          Trie.lookup (s :: rest) (Trie.node rs ls v w) caps = Trie.lookup rest c caps) ∧
    (∀ (rs : List Route) (ls : List (String × Trie)) (c : Trie) (w : List Route)
        (s : String) (rest caps : List String),
        ls.lookup s = none →
          Trie.lookup (s :: rest) (Trie.node rs ls (some c) w) caps
            = Trie.lookup rest c (caps ++ [s])) ∧
    (∀ (c : APIConfig) (idx : RouteIndex) (path : String) (r : Route),
        Compile c = Except.ok idx →
        r ∈ Resource.routesList "" c.Resources →
        r.Template = (splitPath path).map Segment.lit →
        ∃ r0 : Route,
          (Resource.routesList "" c.Resources).find?
              (fun x => decide (x.Template = (splitPath path).map Segment.lit)) = some r0 ∧
          r0.Template = (splitPath path).map Segment.lit ∧
          idx.resolve path = some (r0, []) ∧
          ∀ (verb : config.HTTPVerb) (m : Method),
            selectMethod r0.Methods verb = some m → m.OnAir = true →
              idx.Match verb path
                = Except.ok { Path := r0.Path, Method := m, PathVariables := [] }) ∧
    (∀ msVar msLit : List Method,
        (Trie.build (Resource.routesList ""
            [Resource.leaf "/a/:x" msVar, Resource.leaf "/a/b" msLit])).lookup
            (splitPath "/a/b") []
          = some ({ Path := "/a/b", Template := [Segment.lit "a", Segment.lit "b"],
                    Methods := msLit }, []) ∧
        (Trie.build (Resource.routesList ""
            [Resource.leaf "/a/:x" msVar, Resource.leaf "/a/b" msLit])).lookup
            (splitPath "/a/c") []
          = some ({ Path := "/a/:x", Template := [Segment.lit "a", Segment.var "x"],
                    Methods := msVar }, ["c"]) ∧
        (Trie.build (Resource.routesList ""
            [Resource.leaf "/a/b" msLit, Resource.leaf "/a/:x" msVar])).lookup
            (splitPath "/a/b") []
          = some ({ Path := "/a/b", Template := [Segment.lit "a", Segment.lit "b"],
                    Methods := msLit }, []) ∧
        (Trie.build (Resource.routesList ""
            [Resource.leaf "/a/b" msLit, Resource.leaf "/a/:x" msVar])).lookup
            (splitPath "/a/c") []
          = some ({ Path := "/a/:x", Template := [Segment.lit "a", Segment.var "x"],
                    Methods := msVar }, ["c"])) ∧
    (Compile Example.varFirst = Except.ok (RouteIndex.ofConfig Example.varFirst) ∧
      (RouteIndex.ofConfig Example.varFirst).Match MethodGet "/a/b"
        = Except.ok { Path := "/a/b", Method := Method.simple MethodGet true "lit",
                      PathVariables := [] } ∧
      (RouteIndex.ofConfig Example.varFirst).Match MethodGet "/a/c"
        = Except.ok { Path := "/a/:x", Method := Method.simple MethodGet true "var",
                      PathVariables := [("x", "c")] }) ∧
    (Compile Example.litFirst = Except.ok (RouteIndex.ofConfig Example.litFirst) ∧
      (RouteIndex.ofConfig Example.litFirst).Match MethodGet "/a/b"
        = Except.ok { Path := "/a/b", Method := Method.simple MethodGet true "lit",
                      PathVariables := [] } ∧
      (RouteIndex.ofConfig Example.litFirst).Match MethodGet "/a/c"
        = Except.ok { Path := "/a/:x", Method := Method.simple MethodGet true "var",
                      PathVariables := [("x", "c")] }) := by
  refine ⟨?_, ?_, ?_, ?_, ⟨rfl, rfl, rfl⟩, ⟨rfl, rfl, rfl⟩, ?_, ?_, ?_, ?_, ?_, ?_⟩
  · intro c idx path hc
    exact RouteIndex.resolve_eq_priorityLookup c idx path hc
  · intro c idx path r0 caps hc hres
    exact RouteIndex.resolve_outranks c idx path r0 caps hc hres
  · intro c idx verb path mm hc hm
    obtain ⟨r0, caps, hres, hp, hsel, _⟩ := RouteIndex.Match_ok_route idx verb path mm hm
    obtain ⟨hmem, hmatch, hbest⟩ := RouteIndex.resolve_outranks c idx path r0 caps hc hres
    exact ⟨r0, hmem, hp, hsel, hmatch, hbest⟩
  · intro s rest caps cs l ls hl
    rw [Trie.lookup_insertAll, Trie.lookup_insertAll]
    simp only [priorityLookup, hl]
  · intro rs ls v w s rest caps c h
    simp only [Trie.lookup, h]
  · intro rs ls c w s rest caps h
    simp only [Trie.lookup, h]
  · intro c idx path r hc hr ht
    exact RouteIndex.resolve_literal c idx path r hc hr ht
  · intro msVar msLit
    exact ⟨rfl, rfl, rfl, rfl⟩
  · exact ⟨rfl, rfl, rfl⟩
  · exact ⟨rfl, rfl, rfl⟩

/-- C7. For every route index, verb and path: if the Method that path and
verb select has `OnAir` false, `Match` returns `RouteNotFound`; a
`MatchedMethod` that `Match` returns is the selected Method and has `OnAir`
true. With `GET /ping` configured off air, the configuration compiles and
`Match(GET, "/ping")` is `RouteNotFound`. -/
theorem RouteIndex.match_hides_off_air (idx : RouteIndex) (verb : config.HTTPVerb)
    (path : String) :
    (∀ m : Method, idx.selected verb path = some m → m.OnAir = false →
        idx.Match verb path = Except.error ErrorKind.RouteNotFound) ∧
    (∀ mm : MatchedMethod, idx.Match verb path = Except.ok mm →
        mm.Method.OnAir = true ∧ idx.selected verb path = some mm.Method) ∧
    (Compile Example.pingOff = Except.ok (RouteIndex.ofConfig Example.pingOff) ∧
      (RouteIndex.ofConfig Example.pingOff).selected MethodGet "/ping"
        = some (Method.simple MethodGet false "ping") ∧
      (RouteIndex.ofConfig Example.pingOff).Match MethodGet "/ping"
        = Except.error ErrorKind.RouteNotFound) := by
  refine ⟨?_, ?_, rfl, rfl, rfl⟩
  · intro m hsel hoff
    unfold RouteIndex.selected at hsel
    unfold RouteIndex.Match
    cases hres : idx.resolve path with
    | none => rfl
    | some rc =>
        obtain ⟨route, caps⟩ := rc
        simp only [hres, Option.some_bind] at hsel
        simp only [hsel, hoff]
        rfl
  · intro mm hmatch
    unfold RouteIndex.Match at hmatch
    unfold RouteIndex.selected
    cases hres : idx.resolve path with
    | none => simp [hres] at hmatch
    | some rc =>
        obtain ⟨route, caps⟩ := rc
        simp only [hres] at hmatch
        cases hsel : selectMethod route.Methods verb with
        | none => simp [hsel] at hmatch
        | some m =>
            simp only [hsel] at hmatch
            cases hon : m.OnAir with
            | false => simp [hon] at hmatch
            | true =>
                simp only [hon, ↓reduceIte, Except.ok.injEq] at hmatch
                subst hmatch
                exact ⟨hon, by simp [hsel]⟩

/-! ## Parameter Resolver -/

theorem lookup_setField (dest value : String) :
    ∀ fs : List (String × String), (setField dest value fs).lookup dest = some value
  | [] => by simp [setField, List.lookup]
  | (k, v) :: fs => by
      by_cases hk : k = dest
      · subst hk
        simp [setField, List.lookup]
      · have hb : (k == dest) = false := by simpa using hk
        have hb2 : (dest == k) = false := by simpa using fun h => hk h.symm
        simp only [setField, hb, Bool.false_eq_true, ↓reduceIte, List.lookup, hb2]
        exact lookup_setField dest value fs

/-- C5 (as amended). For a rule whose source value `v` is present: the rule
assigns its `MapTo` destination exactly when `Opt.Open` is false, or
`Opt.Usable` is true and the behaviour named `Opt.Name` is registered and
returns a value. With `Open` false the raw value is assigned whatever
`Usable` is, and the destination then holds it; with `Open` true and `Usable`
false the rule is skipped and the call is left as it was; with `Open` and
`Usable` true and no registered behaviour the rule fails with
`UnknownOption`. -/
theorem mapping_rule_applies_iff (registry : OptionRegistry)
    (extracted : List (String × String)) (m : MappingParam) (v : String)
    (call : IntegrationCall) (h : extracted.lookup m.Name = some v) :
    ((∃ w, mappingStep registry extracted m = MappingStep.assign m.MapTo w) ↔
      (m.Opt.Open = false ∨
        (m.Opt.Usable = true ∧
          ∃ f w, registry m.Opt.Name = some f ∧ f v = Except.ok w))) ∧
    (m.Opt.Open = false →
      mappingStep registry extracted m = MappingStep.assign m.MapTo v ∧
      applyMapping registry extracted call m = Except.ok (call.assign m.MapTo v) ∧
      (call.assign m.MapTo v).Fields.lookup m.MapTo = some v) ∧
    (m.Opt.Open = true → m.Opt.Usable = false →
      mappingStep registry extracted m = MappingStep.skip ∧
      applyMapping registry extracted call m = Except.ok call) ∧
    (m.Opt.Open = true → m.Opt.Usable = true → registry m.Opt.Name = none →
      mappingStep registry extracted m = MappingStep.fail ErrorKind.UnknownOption ∧
      applyMapping registry extracted call m = Except.error ErrorKind.UnknownOption) := by
  refine ⟨?_, ?_, ?_, ?_⟩
  · cases hopen : m.Opt.Open with
    | false => simp [mappingStep, h, hopen]
    | true =>
        cases husable : m.Opt.Usable with
        | false => simp [mappingStep, h, hopen, husable]
        | true =>
            cases hreg : registry m.Opt.Name with
            | none => simp [mappingStep, h, hopen, husable, hreg]
            | some f =>
                cases hf : f v with
                | error e => simp [mappingStep, h, hopen, husable, hreg, hf]
                | ok w => simp [mappingStep, h, hopen, husable, hreg, hf]
  · intro hopen
    refine ⟨by simp [mappingStep, h, hopen], by simp [applyMapping, mappingStep, h, hopen], ?_⟩
    exact lookup_setField _ _ _
  · intro hopen husable
    exact ⟨by simp [mappingStep, h, hopen, husable],
      by simp [applyMapping, mappingStep, h, hopen, husable]⟩
  · intro hopen husable hreg
    exact ⟨by simp [mappingStep, h, hopen, husable, hreg],
      by simp [applyMapping, mappingStep, h, hopen, husable, hreg]⟩

/-- C5 at a concrete rule: `Opt{Open:false, Usable:false}` with the source
present assigns `MapTo`, overwriting the default of the destination. -/
theorem mapping_rule_applies_iff_witness :
    Example.tokenSource.lookup Example.closedRule.Name = some "abc" ∧
      applyMapping OptionRegistry.none Example.tokenSource Example.templateCall
          Example.closedRule
        = Except.ok (Example.templateCall.assign "0" "abc") ∧
      (Example.templateCall.assign "0" "abc").Fields = [("0", "abc")] :=
  ⟨by decide,
   ((mapping_rule_applies_iff OptionRegistry.none Example.tokenSource Example.closedRule
      "abc" Example.templateCall (by decide)).2.1 (by decide)).2.1,
   by decide⟩

/-- C5 fails as stated: with the source present, `Open` and `Usable` both
true and an option name the registry does not know, the rule does not assign
its destination but fails with `UnknownOption`. -/
theorem mapping_open_usable_unknown_option_fails :
    Example.tokenSource.lookup Example.openUsableRule.Name = some "abc" ∧
      (Example.openUsableRule.Opt.Open = false ∨ Example.openUsableRule.Opt.Usable = true) ∧
      mappingStep OptionRegistry.none Example.tokenSource Example.openUsableRule
        = MappingStep.fail ErrorKind.UnknownOption ∧
      ¬ ∃ w, mappingStep OptionRegistry.none Example.tokenSource Example.openUsableRule
          = MappingStep.assign Example.openUsableRule.MapTo w := by
  refine ⟨by decide, by decide, by decide, ?_⟩
  rintro ⟨w, hw⟩
  have hf : mappingStep OptionRegistry.none Example.tokenSource Example.openUsableRule
      = MappingStep.fail ErrorKind.UnknownOption := by decide
  rw [hf] at hw
  exact MappingStep.noConfusion hw

end config
